import Mathlib

/-
Verification development for the formsuite conditional-visibility rule engine
(src/rules-core.js).

Shallow-embedding conventions:
* JavaScript values are modelled by the inductive type `JsVal` below.
  Numbers are restricted to integers (`Option Int`, with `none` encoding NaN);
  the repository's rule engine only ever compares and coerces integral data in
  the behaviours under verification, and no claim depends on fractional values.
* `Date` objects are modelled by their UTC calendar day `(year, monthIndex, day)`,
  with `none` encoding an Invalid Date; the host's millisecond time value is not
  modelled (no verified claim reads it).
* String routines (`trim`, `toLowerCase`, slugs) are modelled for ASCII input;
  the source's NFKD diacritic stripping is the identity there.
* Fallible code (the only throwing path is `toISOString` on an Invalid Date in
  `sanitizeValues`) returns `Except String _`; everything else is total, which
  is the shallow counterpart of "never throws" on the modelled value domain.
* Cyclic object graphs are not representable in an inductive value type, so all
  quantifications over inputs range over finite (acyclic) JavaScript data.
-/

set_option maxRecDepth 8000

namespace FormSuite

/-- A JavaScript-like value: the input/output domain of rules-core.js.
`num none` is NaN; `date none` is an Invalid Date; `date (some (y,m,d))` is a
valid Date at UTC calendar day y-m-d (monthIndex `m` is 0-based as in JS). -/
inductive JsVal where
  | null : JsVal
  | undef : JsVal
  | bool (b : Bool) : JsVal
  | num (n : Option Int) : JsVal
  | str (s : String) : JsVal
  | arr (elems : List JsVal) : JsVal
  | obj (props : List (String × JsVal)) : JsVal
  | date (ymd : Option (Int × Nat × Nat)) : JsVal

/-- ASCII whitespace (the characters String.prototype.trim strips in the
modelled inputs). -/
def isWsChar (c : Char) : Bool := c = ' ' ∨ c = '\n' ∨ c = '\t' ∨ c = '\r'

/-- String.prototype.trim, over the character list. -/
def jsTrim (s : String) : String :=
  String.mk (((s.data.dropWhile isWsChar).reverse.dropWhile isWsChar).reverse)

/-- String.prototype.toLowerCase (ASCII). -/
def jsLower (s : String) : String := String.mk (s.data.map Char.toLower)

/-- String.prototype.toUpperCase (ASCII). -/
def jsUpper (s : String) : String := String.mk (s.data.map Char.toUpper)

/-- Worker for String.prototype.split with a nonempty separator: the fuel is
the input length (each step consumes at least one character, so it never runs
out when called through jsSplitOn). -/
def jsSplitAux (sep : List Char) : Nat → List Char → List Char → List (List Char)
  | _, [], acc => [acc.reverse]
  | 0, cs, acc => [acc.reverse ++ cs]
  | Nat.succ fuel, c :: rest, acc =>
    if sep.isPrefixOf (c :: rest) then
      acc.reverse :: jsSplitAux sep fuel (List.drop (sep.length - 1) rest) []
    else jsSplitAux sep fuel rest (c :: acc)

/-- String.prototype.split(sep) for a nonempty separator (the call sites only
split on "__opt__", ":", "|", "-"). -/
def jsSplitOn (s sep : String) : List String :=
  if sep = "" then [s]
  else (jsSplitAux sep.data s.data.length s.data []).map String.mk

/-- Left-pad a string with a fill character (String.prototype.padStart). -/
def padStartStr (s : String) (n : Nat) (c : Char) : String :=
  if s.length ≥ n then s else String.mk (List.replicate (n - s.length) c) ++ s

/-- Two-digit zero padding for date components. -/
def pad2 (n : Nat) : String := padStartStr (toString n) 2 '0'

/-- The date part of Date.prototype.toISOString: "YYYY-MM-DD"
(monthIndex is 0-based, printed 1-based). -/
def isoDateString (y : Int) (m d : Nat) : String :=
  padStartStr (toString y) 4 '0' ++ "-" ++ pad2 (m + 1) ++ "-" ++ pad2 d

/-- Parse a nonempty all-digit character list to a Nat. -/
def digitsToNat (cs : List Char) : Option Nat :=
  if cs = [] then none
  else cs.foldl (fun acc c =>
    match acc with
    | none => none
    | some n => if c.isDigit then some (n * 10 + (c.toNat - 48)) else none) (some 0)

/-- JS Number("...") on a string, restricted to integer literals: the empty
(or all-whitespace) string is 0, optionally signed digit strings parse, and
everything else (floats, hex, Infinity) is NaN (`none`) in this model. -/
def strToNumOpt (s : String) : Option Int :=
  let t := jsTrim s
  if t = "" then some 0
  else
    match t.data with
    | '-' :: rest => (digitsToNat rest).map (fun n => -(n : Int))
    | '+' :: rest => (digitsToNat rest).map (fun n => (n : Int))
    | cs => (digitsToNat cs).map (fun n => (n : Int))

mutual
/-- JS String(v) coercion. `String(Date)` is modelled by the ISO date string
(the host's locale-dependent long form is not modelled; no claim reads it). -/
def jsToString : JsVal → String
  | .null => "null"
  | .undef => "undefined"
  | .bool b => if b then "true" else "false"
  | .num none => "NaN"
  | .num (some n) => toString n
  | .str s => s
  | .arr xs => String.intercalate "," (arrElemStrings xs)
  | .obj _ => "[object Object]"
  | .date none => "Invalid Date"
  | .date (some (y, m, d)) => isoDateString y m d
termination_by structural v => v

/-- Array.prototype.toString element strings: null/undefined print empty. -/
def arrElemStrings : List JsVal → List String
  | [] => []
  | JsVal.null :: vs => "" :: arrElemStrings vs
  | JsVal.undef :: vs => "" :: arrElemStrings vs
  | v :: vs => jsToString v :: arrElemStrings vs
termination_by structural l => l
end

/-- JS Number(v) coercion (ToNumber), integer-restricted.
`none` is NaN. Date time values are not modelled (`none`). -/
def jsToNumber : JsVal → Option Int
  | .null => some 0
  | .undef => none
  | .bool b => some (if b then 1 else 0)
  | .num n => n
  | .str s => strToNumOpt s
  | .arr xs => strToNumOpt (jsToString (.arr xs))
  | .obj _ => none
  | .date _ => none

/-- JS truthiness. -/
def jsTruthy : JsVal → Bool
  | .null => false
  | .undef => false
  | .bool b => b
  | .num none => false
  | .num (some n) => n ≠ 0
  | .str s => s ≠ ""
  | .arr _ => true
  | .obj _ => true
  | .date _ => true

/-- JS nullish test (v == null). -/
def jsNullish : JsVal → Bool
  | .null => true
  | .undef => true
  | _ => false

/-- First binding of a key in a property list (JS objects have unique keys;
models own-property lookup). -/
def propLookup : List (String × JsVal) → String → Option JsVal
  | [], _ => none
  | (k, v) :: rest, key => if k = key then some v else propLookup rest key

/-- A string that is a canonical array index ("0", "17", ...). -/
def natIndexOf (s : String) : Option Nat :=
  match digitsToNat s.data with
  | some n => if toString n = s then some n else none
  | none => none

/-- JS property read `v[key]` (undefined when absent or on primitives;
the prototype chain is not modelled). -/
def getProp (v : JsVal) (key : String) : JsVal :=
  match v with
  | .obj props => (propLookup props key).getD .undef
  | .arr xs =>
    match natIndexOf key with
    | some n => (xs.get? n).getD .undef
    | none => .undef
  | .str s =>
    match natIndexOf key with
    | some n =>
      match s.data.get? n with
      | some c => .str (String.mk [c])
      | none => .undef
    | none => .undef
  | _ => (.undef)

/-- Update-or-append write on a property list (JS `o[k] = v`: existing keys
keep their position, new keys append in insertion order). -/
def propSet : List (String × JsVal) → String → JsVal → List (String × JsVal)
  | [], key, v => [(key, v)]
  | (k, w) :: rest, key, v =>
    if k = key then (k, v) :: rest else (k, w) :: propSet rest key v

/-- JS property write `o[k] = v`; assignment to non-objects has no
observable effect in the modelled reads. -/
def setProp (o : JsVal) (key : String) (v : JsVal) : JsVal :=
  match o with
  | .obj props => .obj (propSet props key v)
  | other => other

/-- JS `delete o[k]` on a property list. -/
def propRemove (ps : List (String × JsVal)) (key : String) : List (String × JsVal) :=
  ps.filter (fun kv => kv.1 ≠ key)

/-- Own enumerable values (Object.values). -/
def objValues : JsVal → List JsVal
  | .obj ps => ps.map (fun kv => kv.2)
  | _ => []

/-- Own property list of an object, empty otherwise. -/
def objProps : JsVal → List (String × JsVal)
  | .obj ps => ps
  | _ => []

/-- JS object spread `{...v}`: objects copy their properties, arrays and
strings spread to index-keyed properties, other primitives and Date spread
to nothing. -/
def spreadToObj : JsVal → JsVal
  | .obj props => .obj props
  | .arr xs => .obj (xs.enum.map (fun iv => (toString iv.1, iv.2)))
  | .str s => .obj (s.data.enum.map (fun ic => (toString ic.1, JsVal.str (String.mk [ic.2]))))
  | _ => .obj []

/-- JS `a ?? b`. -/
def jsCoalesce (a b : JsVal) : JsVal := if jsNullish a then b else a

/-- JS `a || b`. -/
def jsOr (a b : JsVal) : JsVal := if jsTruthy a then a else b

/-- JS `a && b`. -/
def jsAnd (a b : JsVal) : JsVal := if jsTruthy a then b else a

/-- Substring test (String.prototype.includes, nonempty needle). -/
def strIncludes (s needle : String) : Bool := (jsSplitOn s needle).length ≥ 2

/-- Collapse runs of consecutive underscores to a single one. -/
def collapseUnderscores : List Char → List Char
  | [] => []
  | [c] => [c]
  | a :: b :: rest =>
    if a = '_' ∧ b = '_' then collapseUnderscores (b :: rest)
    else a :: collapseUnderscores (b :: rest)

/-- Drop leading underscores. -/
def dropLeadingUnderscores (cs : List Char) : List Char :=
  cs.dropWhile (fun c => c = '_')

/-- Core of `__slug` on a string: non-alphanumeric runs collapse to a single
"_", leading/trailing "_" stripped, lowercased. NFKD diacritic stripping is
the identity on the ASCII strings of this model. -/
def slugString (s : String) : String :=
  let mapped := s.data.map (fun c => if c.isAlphanum then c else '_')
  let collapsed := collapseUnderscores mapped
  let noLead := dropLeadingUnderscores collapsed
  let trimmed := (dropLeadingUnderscores noLead.reverse).reverse
  jsLower (String.mk trimmed)

/-- rules-core.js __slug(s): String(s ?? '') slugified. -/
def __slug (v : JsVal) : String := slugString (jsToString (jsCoalesce v (.str "")))

/-- __slug applied to a plain string. -/
def slugS (s : String) : String := __slug (.str s)

/-- Skip JSON whitespace. -/
def skipWs (cs : List Char) : List Char :=
  cs.dropWhile (fun c => c = ' ' ∨ c = '\n' ∨ c = '\t' ∨ c = '\r')

/-- Match an exact character prefix. -/
def stripPrefixChars : List Char → List Char → Option (List Char)
  | [], cs => some cs
  | p :: ps, c :: cs => if c = p then stripPrefixChars ps cs else none
  | _ :: _, [] => none

/-- Parse the remainder of a JSON string literal (after the opening quote),
decoding the basic escapes. -/
def parseJsonStringAux : List Char → List Char → Option (String × List Char)
  | [], _ => none
  | c :: rest, acc =>
    if c = '\"' then some (String.mk acc.reverse, rest)
    else if c = '\\' then
      match rest with
      | [] => none
      | e :: rest2 =>
        let dec := if e = 'n' then '\n' else if e = 't' then '\t'
                   else if e = 'r' then '\r' else e
        parseJsonStringAux rest2 (dec :: acc)
    else parseJsonStringAux rest (c :: acc)

mutual
/-- Model of JSON.parse (value position), integer numerals only: fractional
numerals make the whole parse fail, which normalizeRuleCollection treats like
a non-JSON string. Fuel bounds the recursion depth. -/
def parseJsonVal : Nat → List Char → Option (JsVal × List Char)
  | 0, _ => none
  | Nat.succ fuel, cs0 =>
    match skipWs cs0 with
    | [] => none
    | c :: rest =>
      if c = '\"' then
        (parseJsonStringAux rest []).map (fun sr => (JsVal.str sr.1, sr.2))
      else if c = '[' then
        match skipWs rest with
        | ']' :: r2 => some (.arr [], r2)
        | _ => (parseJsonItems fuel rest).map (fun xr => (JsVal.arr xr.1, xr.2))
      else if c = '\x7b' then
        match skipWs rest with
        | '\x7d' :: r2 => some (.obj [], r2)
        | _ => (parseJsonMembers fuel rest).map (fun mr => (JsVal.obj mr.1, mr.2))
      else if c = 't' then
        (stripPrefixChars ['r', 'u', 'e'] rest).map (fun r => (JsVal.bool true, r))
      else if c = 'f' then
        (stripPrefixChars ['a', 'l', 's', 'e'] rest).map (fun r => (JsVal.bool false, r))
      else if c = 'n' then
        (stripPrefixChars ['u', 'l', 'l'] rest).map (fun r => (JsVal.null, r))
      else if c = '-' ∨ c.isDigit then
        let body := if c = '-' then rest else c :: rest
        let ds := body.takeWhile Char.isDigit
        let r := body.dropWhile Char.isDigit
        match digitsToNat ds with
        | some numv =>
          some (.num (some (if c = '-' then -(numv : Int) else (numv : Int))), r)
        | none => none
      else none

/-- Parse remaining JSON array items (after at least one value). -/
def parseJsonItems : Nat → List Char → Option (List JsVal × List Char)
  | 0, _ => none
  | Nat.succ fuel, cs =>
    match parseJsonVal fuel cs with
    | none => none
    | some (v, r) =>
      match skipWs r with
      | ',' :: r2 => (parseJsonItems fuel r2).map (fun xr => (v :: xr.1, xr.2))
      | ']' :: r2 => some ([v], r2)
      | _ => none

/-- Parse remaining JSON object members (after at least one member). -/
def parseJsonMembers : Nat → List Char → Option (List (String × JsVal) × List Char)
  | 0, _ => none
  | Nat.succ fuel, cs =>
    match skipWs cs with
    | '\"' :: r =>
      match parseJsonStringAux r [] with
      | none => none
      | some (k, r2) =>
        match skipWs r2 with
        | ':' :: r3 =>
          match parseJsonVal fuel r3 with
          | none => none
          | some (v, r4) =>
            match skipWs r4 with
            | ',' :: r5 => (parseJsonMembers fuel r5).map (fun mr => ((k, v) :: mr.1, mr.2))
            | '\x7d' :: r5 => some ([(k, v)], r5)
            | _ => none
        | _ => none
    | _ => none
end

/-- JSON.parse model: succeeds iff the whole string is one JSON value. -/
def jsonParse (s : String) : Option JsVal :=
  match parseJsonVal (s.length + 1) s.data with
  | some (v, r) => if skipWs r = [] then some v else none
  | none => none

/-- The aggregation heuristic: an object carrying any of
action/fieldId/whenField/targets (truthy) is accepted as a rule. -/
def isRuleLike (v : JsVal) : Bool :=
  jsTruthy (getProp v "action") || jsTruthy (getProp v "fieldId") ||
  jsTruthy (getProp v "whenField") || jsTruthy (getProp v "targets")

mutual
/-- Size measure used as recursion fuel for normalizeRuleCollection: it
strictly dominates the source's recursion depth on the inductive value domain
(JSON.parse output is smaller than the string it came from). -/
def jsMeasure : JsVal → Nat
  | .str s => s.length + 1
  | .arr xs => jsMeasureList xs + 1
  | .obj ps => jsMeasureProps ps + 1
  | _ => 1
termination_by structural v => v

def jsMeasureList : List JsVal → Nat
  | [] => 0
  | v :: vs => jsMeasure v + 1 + jsMeasureList vs
termination_by structural l => l

def jsMeasureProps : List (String × JsVal) → Nat
  | [] => 0
  | kv :: rest => kv.1.length + jsMeasure kv.2 + 1 + jsMeasureProps rest
termination_by structural l => l
end

mutual
/-- Recursive flattener of normalizeRuleCollection: arrays recurse elementwise,
strings are JSON-parsed and recursed into (non-JSON strings are dropped),
rule-like objects are accepted, other objects recurse into their values; all
other values fall through. JS Set inputs are not modelled (arrays cover the
observable behaviour). -/
def nrcInner : Nat → JsVal → List JsVal → List JsVal
  | 0, _, acc => acc
  | Nat.succ fuel, v, acc =>
    match v with
    | .null => acc
    | .undef => acc
    | .arr xs => nrcInnerList fuel xs acc
    | .str s =>
      let t := jsTrim s
      if t = "" then acc
      else
        match jsonParse t with
        | some p => nrcInner fuel p acc
        | none => acc
    | .obj _ =>
      if isRuleLike v then acc ++ [v]
      else nrcInnerList fuel (objValues v) acc
    | _ => acc
termination_by fuel _ _ => (fuel, 0)

/-- Flatten a list of collection members in order. -/
def nrcInnerList : Nat → List JsVal → List JsVal → List JsVal
  | _, [], acc => acc
  | fuel, x :: xs, acc => nrcInnerList fuel xs (nrcInner fuel x acc)
termination_by fuel xs _ => (fuel, xs.length + 1)
end

/-- rules-core.js normalizeRuleCollection(raw). -/
def normalizeRuleCollection (raw : JsVal) : List JsVal :=
  nrcInner (jsMeasure raw + 1) raw []

/-- JSON string escaping for the basic characters (other control characters
are kept verbatim in this model; only determinism matters to the proofs). -/
def escapeJsonChar (c : Char) : String :=
  if c = '\"' then "\\\""
  else if c = '\\' then "\\\\"
  else if c = '\n' then "\\n"
  else if c = '\t' then "\\t"
  else if c = '\r' then "\\r"
  else String.mk [c]

/-- Quote a string as a JSON string literal. -/
def quoteJson (s : String) : String :=
  "\"" ++ String.join (s.data.map escapeJsonChar) ++ "\""

mutual
/-- JSON.stringify model; `none` is the undefined result. NaN stringifies to
null; a valid Date stringifies via its (date-truncated) ISO string; an Invalid
Date stringifies to null (Date.prototype.toJSON). -/
def jsonStringify : JsVal → Option String
  | .undef => none
  | .null => some "null"
  | .bool b => some (if b then "true" else "false")
  | .num none => some "null"
  | .num (some n) => some (toString n)
  | .str s => some (quoteJson s)
  | .date none => some "null"
  | .date (some (y, m, d)) => some (quoteJson (isoDateString y m d))
  | .arr xs => some ("[" ++ String.intercalate "," (jsonStringifyArr xs) ++ "]")
  | .obj props =>
    some ("\x7b" ++ String.intercalate "," (jsonStringifyProps props) ++ "\x7d")
termination_by structural v => v

/-- Array elements: undefined-producing members render as null. -/
def jsonStringifyArr : List JsVal → List String
  | [] => []
  | v :: vs => ((jsonStringify v).getD "null") :: jsonStringifyArr vs
termination_by structural l => l

/-- Object members: undefined-producing members are omitted. -/
def jsonStringifyProps : List (String × JsVal) → List String
  | [] => []
  | (k, v) :: rest =>
    match jsonStringify v with
    | some sv => (quoteJson k ++ ":" ++ sv) :: jsonStringifyProps rest
    | none => jsonStringifyProps rest
termination_by structural l => l
end

/-- The comparison clone of dedupeRules: a shallow copy with the volatile
fields version/ts removed (objects, arrays and dates spread; primitives are
used as-is). -/
def dedupeShallow (r : JsVal) : JsVal :=
  match r with
  | .obj _ | .arr _ | .date _ =>
    JsVal.obj (propRemove (propRemove (objProps (spreadToObj r)) "version") "ts")
  | _ => r

/-- The dedup key: JSON.stringify of the stripped comparison clone. -/
def dedupeKey (r : JsVal) : String :=
  (jsonStringify (jsCoalesce (dedupeShallow r) .null)).getD "undefined"

/-- Worker of dedupeRules: falsy records are skipped, the first record with
each key is retained verbatim. -/
def dedupeGo : List String → List JsVal → List JsVal
  | _, [] => []
  | seen, r :: rs =>
    if ¬ jsTruthy r then dedupeGo seen rs
    else if dedupeKey r ∈ seen then dedupeGo seen rs
    else r :: dedupeGo (dedupeKey r :: seen) rs

/-- rules-core.js dedupeRules(arr) (the `arr || []` null guard is absorbed by
taking a list argument). -/
def dedupeRules (l : List JsVal) : List JsVal := dedupeGo [] l

/-- Object/array/date values (JS `typeof v === 'object'`, null excluded by the
call sites' truthiness guards). -/
def isObjectLike : JsVal → Bool
  | .obj _ | .arr _ | .date _ => true
  | _ => false

/-- Generic insertion-ordered string-keyed map write (JS Map.set: an existing
key keeps its position, its value is replaced; a new key appends). -/
def assocSet {α : Type} : List (String × α) → String → α → List (String × α)
  | [], k, v => [(k, v)]
  | (k0, v0) :: rest, k, v =>
    if k0 = k then (k0, v) :: rest else (k0, v0) :: assocSet rest k v

/-- Map.get (first—and only—binding of the key). -/
def assocGet {α : Type} : List (String × α) → String → Option α
  | [], _ => none
  | (k0, v0) :: rest, k => if k0 = k then some v0 else assocGet rest k

/-- A schema field. `id`, `label`, `type` are strings per the repository's
data model (the source re-coerces with String(...) which is the identity
here); `options` keeps the source's untyped option records; `mcGroups` models
`f.mc.groups[i].items` ([] when `mc` is absent). -/
structure FieldSchema where
  id : String
  label : String
  type : String
  options : List JsVal
  mcGroups : List (List JsVal)

/-- A form schema (only `fields` is read by rules-core.js). -/
structure FormSchema where
  fields : List FieldSchema

/-- The three indexes of __buildSchemaIndex. -/
structure SchemaIndex where
  byId : List (String × FieldSchema)
  byLabel : List (String × FieldSchema)
  optionToField : List (String × FieldSchema)

/-- The option label strings a field contributes to optionToField:
`o?.label ?? o?.text ?? o?.value ?? o` (pushed when non-nullish) from the flat
options list, then `it.value` (when non-nullish) from mc groups. -/
def schemaFieldOpts (f : FieldSchema) : List String :=
  (f.options.filterMap (fun o =>
    let lab := jsCoalesce (getProp o "label")
      (jsCoalesce (getProp o "text") (jsCoalesce (getProp o "value") o))
    if jsNullish lab then none else some (jsToString lab)))
  ++ (f.mcGroups.flatten.filterMap (fun it =>
    if jsNullish (getProp it "value") then none else some (jsToString (getProp it "value"))))

/-- The loop body of __buildSchemaIndex for one field: register the id, the
(truthy) lowercased label, and every option label. -/
def schemaIndexStep (idx : SchemaIndex) (f : FieldSchema) : SchemaIndex :=
  let idx := { idx with byId := assocSet idx.byId f.id f }
  let idx :=
    if f.label ≠ "" then
      { idx with byLabel := assocSet idx.byLabel (jsLower (jsTrim f.label)) f }
    else idx
  (schemaFieldOpts f).foldl (fun idx lab =>
    { idx with optionToField := assocSet idx.optionToField (jsLower (jsTrim lab)) f }) idx

/-- rules-core.js __buildSchemaIndex(schema). -/
def __buildSchemaIndex (schema : FormSchema) : SchemaIndex :=
  schema.fields.foldl schemaIndexStep ⟨[], [], []⟩

/-- rules-core.js __resolveFieldRef(schema, raw): resolution chain
opt-composite → exact id → lowercase label → colon prefix label → option
label/value; null on failure. -/
def __resolveFieldRef (schema : FormSchema) (raw : JsVal) : Option FieldSchema :=
  if ¬ jsTruthy raw then none
  else
    let s := jsTrim (jsToString raw)
    let idx := __buildSchemaIndex schema
    let viaOpt : Option FieldSchema :=
      if strIncludes s "__opt__" then
        let baseId := (jsSplitOn s "__opt__").headD ""
        match assocGet idx.byId baseId with
        | some f => some f
        | none =>
          let slug := (jsSplitOn s "__opt__").getLastD ""
          (idx.optionToField.find? (fun kv => slugS kv.1 = jsLower slug)).map (fun kv => kv.2)
      else none
    match viaOpt with
    | some f => some f
    | none =>
      match assocGet idx.byId s with
      | some f => some f
      | none =>
        match assocGet idx.byLabel (jsLower s) with
        | some f => some f
        | none =>
          let p0 := jsTrim ((jsSplitOn s ":").headD s)
          match assocGet idx.byLabel (jsLower p0) with
          | some f => some f
          | none => assocGet idx.optionToField (jsLower s)

/-- One option of an option-index record: value, label and slug strings. -/
structure OptEntry where
  value : String
  label : String
  slug : String
deriving DecidableEq, Repr

/-- One field record of __buildOptionIndex. -/
structure OptionRec where
  id : String
  label : String
  type : String
  options : List OptEntry
deriving DecidableEq, Repr

/-- Build one option entry from an untyped option record:
value = `opt?.value ?? opt?.id ?? opt`, label = `opt?.label ?? opt?.text ?? value`. -/
def mkOptEntry (opt : JsVal) : OptEntry :=
  let value := jsToString (jsCoalesce (getProp opt "value") (jsCoalesce (getProp opt "id") opt))
  let label := jsToString (jsCoalesce (getProp opt "label") (jsCoalesce (getProp opt "text") (.str value)))
  { value := value, label := label, slug := slugS label }

/-- rules-core.js __buildOptionIndex(schema). -/
def __buildOptionIndex (schema : FormSchema) : List (String × OptionRec) :=
  schema.fields.foldl (fun m f =>
    let orec : OptionRec :=
      { id := f.id
        label := if f.label ≠ "" then f.label else f.id
        type := f.type
        options := f.options.map mkOptEntry ++ f.mcGroups.flatten.map mkOptEntry }
    assocSet m f.id orec) []

/-- The descriptor returned by __parseOptionFieldRef. -/
structure ParsedRef where
  kind : String
  fieldId : String
  optionSlug : Option String
  optionValue : Option String
  optionLabel : Option String
  id : String
deriving DecidableEq, Repr

/-- rules-core.js __parseOptionFieldRef(schema, ref). -/
def __parseOptionFieldRef (schema : FormSchema) (ref : JsVal) : Option ParsedRef :=
  let raw := jsTrim (jsToString (jsCoalesce ref (.str "")))
  if raw = "" then none
  else if ¬ strIncludes raw "__opt__" then
    some { kind := "field", fieldId := raw, optionSlug := none, optionValue := none,
           optionLabel := none, id := raw }
  else
    let parts := jsSplitOn raw "__opt__"
    let fieldId0 := jsTrim (parts.headD "")
    let optSlug := jsLower (jsTrim (String.intercalate "__opt__" parts.tail))
    let fieldId :=
      match __resolveFieldRef schema (.str fieldId0) with
      | some f => f.id
      | none => fieldId0
    let optionIndex := __buildOptionIndex schema
    let wanted := slugS optSlug
    let hit : Option OptEntry :=
      match assocGet optionIndex fieldId with
      | some orec =>
        if orec.options ≠ [] then
          orec.options.find? (fun o =>
            (wanted ≠ "" ∧ jsLower o.slug = wanted) ∨
            (wanted ≠ "" ∧ (slugS o.label = wanted ∨ slugS o.value = wanted)))
        else none
      | none => none
    match hit with
    | some h =>
      some { kind := "option", fieldId := fieldId, optionSlug := some h.slug,
             optionValue := some h.value, optionLabel := some h.label,
             id := fieldId ++ "__opt__" ++ h.slug }
    | none =>
      let tailId := if slugS optSlug ≠ "" then slugS optSlug
                    else if optSlug ≠ "" then optSlug else "unknown"
      some { kind := "option", fieldId := fieldId, optionSlug := some optSlug,
             optionValue := none, optionLabel := none,
             id := fieldId ++ "__opt__" ++ tailId }

/-- The trigger reference __normalizeWhenOptionRefAgainstSchema inspects:
`rule.fieldId ?? rule.field ?? rule.whenField ?? (rule.conditions &&
rule.conditions[0] && (…fieldId ?? …leftFieldId))`. -/
def whenOptionTriggerRef (rule : JsVal) : JsVal :=
  let conds := getProp rule "conditions"
  let c0 := getProp conds "0"
  let condRef := jsAnd conds (jsAnd c0 (jsCoalesce (getProp c0 "fieldId") (getProp c0 "leftFieldId")))
  jsCoalesce (getProp rule "fieldId")
    (jsCoalesce (getProp rule "field") (jsCoalesce (getProp rule "whenField") condRef))

/-- The rewrite body of __normalizeWhenOptionRefAgainstSchema once an option
composite trigger has been parsed: clone the rule, record the original
reference, point the trigger at the parent field, and force op/values from
the option value by parent field type. -/
def whenOptionRewrite (schema : FormSchema) (rule : JsVal) (refS : String)
    (parsed : ParsedRef) : JsVal :=
  let parentId := parsed.fieldId
  let t := ((schema.fields.find? (fun f => f.id = parentId)).map
              (fun f => f.type)).getD "" |> jsLower
  let r := spreadToObj rule
  let r := if ¬ jsTruthy (getProp r "__whenOptionRef")
           then setProp r "__whenOptionRef" (.str refS) else r
  let r := if ¬ jsTruthy (getProp r "__whenOptionId")
           then setProp r "__whenOptionId" (.str parsed.id) else r
  let r := setProp r "fieldId" (.str parentId)
  let r := if ¬ jsNullish (getProp r "field")
           then setProp r "field" (.str parentId) else r
  let r := if ¬ jsNullish (getProp r "whenField")
           then setProp r "whenField" (.str parentId) else r
  match parsed.optionValue with
  | some ov =>
    if t = "multichoice" then
      setProp (setProp r "op" (.str "anyOf")) "values" (.arr [.str ov])
    else if t = "select" then
      setProp (setProp r "op" (.str "equals")) "values" (.arr [.str ov])
    else
      let r := setProp r "op" (jsOr (getProp r "op") (.str "equals"))
      setProp r "values" (.arr [.str ov])
  | none =>
    setProp r "op"
      (jsOr (getProp r "op") (jsOr (getProp r "operator") (.str "equals")))

/-- rules-core.js __normalizeWhenOptionRefAgainstSchema(schema, rule):
rewrites a rule whose trigger reference is an option composite onto the
parent field with a value comparison. -/
def __normalizeWhenOptionRefAgainstSchema (schema : FormSchema) (rule : JsVal) : JsVal :=
  if ¬ (jsTruthy rule ∧ isObjectLike rule) then rule
  else
    match whenOptionTriggerRef rule with
    | .str refS =>
      if ¬ (refS ≠ "" ∧ strIncludes refS "__opt__") then rule
      else
        match __parseOptionFieldRef schema (.str refS) with
        | some parsed =>
          if parsed.kind ≠ "option" then rule
          else if parsed.fieldId = "" then rule
          else whenOptionRewrite schema rule refS parsed
        | none => rule
    | _ => rule

/-- rules-core.js __coerceRuleForMultichoiceOption(schema, rule, whenField):
wraps `values` in an array for select/multichoice trigger fields. -/
def __coerceRuleForMultichoiceOption (rule : JsVal) (whenField : Option FieldSchema) : JsVal :=
  match whenField with
  | none => rule
  | some f =>
    if f.type ≠ "multichoice" ∧ f.type ≠ "select" then rule
    else
      match getProp rule "values" with
      | .arr xs => setProp (spreadToObj rule) "values" (.arr xs)
      | v => setProp (spreadToObj rule) "values" (.arr [v])

/-- A heading baseline entry after indexing: the raw record plus the canonical
id, label and stable idx the source spreads onto it. -/
structure HeadEntry where
  raw : JsVal
  id : String
  label : String
  idx : Int

/-- The `{id, idx, label}` descriptor normalizeTarget returns. -/
structure HeadTarget where
  id : String
  idx : Int
  label : String
deriving DecidableEq, Repr

/-- The synthesized `sec_NNNNNN` id for an unnamed heading. -/
def canonicalSecId (idx : Int) : String := "sec_" ++ padStartStr (toString idx) 6 '0'

/-- The four lookup maps (plus the flat list) of buildHeadingTargetIndex. -/
structure HeadingIndex where
  flat : List JsVal
  byId : List (String × HeadEntry)
  byIdx : List (String × HeadEntry)
  byNumber : List (String × HeadEntry)
  bySlug : List (String × HeadEntry)

/-- rules-core.js buildHeadingTargetIndex(baseline): maps are built in array
order; stable idx is the entry's own finite numeric idx, else its array
position (a finite idx is never overwritten by position). The one-time
console diagnostic is omitted (side effect only). -/
def buildHeadingTargetIndex (baseline : JsVal) : HeadingIndex :=
  let flatRaw :=
    match getProp baseline "flat" with
    | .arr xs => xs
    | _ =>
      match baseline with
      | .arr xs => xs
      | _ =>
        match getProp baseline "headings" with
        | .arr xs => xs
        | _ => []
  let step := fun (acc : HeadingIndex × Nat) (h : JsVal) =>
    let hi := acc.1
    let arrayPos := acc.2
    let stableIdx :=
      match jsToNumber (getProp h "idx") with
      | some n => n
      | none => (arrayPos : Int)
    let id :=
      if ¬ jsNullish (getProp h "id") then jsToString (getProp h "id")
      else if ¬ jsNullish (getProp h "uid") then jsToString (getProp h "uid")
      else if ¬ jsNullish (getProp h "key") then jsToString (getProp h "key")
      else canonicalSecId stableIdx
    let label := jsToString (jsOr (getProp h "label")
      (jsOr (getProp h "text") (jsOr (getProp h "title") (.str id))))
    let num := jsTrim (jsToString (jsOr (getProp h "number") (jsOr (getProp h "num") (.str ""))))
    let entry : HeadEntry := { raw := h, id := id, label := label, idx := stableIdx }
    let hi := { hi with byId := assocSet hi.byId id entry,
                        byIdx := assocSet hi.byIdx (toString stableIdx) entry }
    let hi := if num ≠ "" then { hi with byNumber := assocSet hi.byNumber num entry } else hi
    let slug := slugS label
    let hi := if slug ≠ "" then { hi with bySlug := assocSet hi.bySlug slug entry } else hi
    (hi, arrayPos + 1)
  (flatRaw.foldl step (⟨flatRaw, [], [], [], []⟩, 0)).1

/-- Project an index entry to the returned target descriptor. -/
def headEntryTarget (e : HeadEntry) : HeadTarget := { id := e.id, idx := e.idx, label := e.label }

/-- Object-target branch of normalizeTarget: id/uid exact → idx/key exact →
number exact → label-slug exact → synthesize from a present finite idx →
null. -/
def normalizeTargetObj (hi : HeadingIndex) (t : JsVal) : Option HeadTarget :=
  let tid := if ¬ jsNullish (getProp t "id") then jsToString (getProp t "id") else ""
  match (if tid ≠ "" then assocGet hi.byId tid else none) with
  | some e => some (headEntryTarget e)
  | none =>
  match (if ¬ jsNullish (getProp t "uid")
         then assocGet hi.byId (jsToString (getProp t "uid")) else none) with
  | some e => some (headEntryTarget e)
  | none =>
  match (if ¬ jsNullish (getProp t "idx") then
           match jsToNumber (getProp t "idx") with
           | some n => assocGet hi.byIdx (toString n)
           | none => none
         else none) with
  | some e => some (headEntryTarget e)
  | none =>
  match (if ¬ jsNullish (getProp t "key") then
           match jsToNumber (getProp t "key") with
           | some n => assocGet hi.byIdx (toString n)
           | none => none
         else none) with
  | some e => some (headEntryTarget e)
  | none =>
  match (if ¬ jsNullish (getProp t "number") then
           let s := jsTrim (jsToString (getProp t "number"))
           if s ≠ "" then assocGet hi.byNumber s else none
         else none) with
  | some e => some (headEntryTarget e)
  | none =>
  match (if jsTruthy (getProp t "label") then
           let slug := __slug (getProp t "label")
           if slug ≠ "" then assocGet hi.bySlug slug else none
         else none) with
  | some e => some (headEntryTarget e)
  | none =>
    if ¬ jsNullish (getProp t "idx") then
      match jsToNumber (getProp t "idx") with
      | some n =>
        let idv := if tid ≠ "" then tid else canonicalSecId n
        let labelv := jsToString (jsOr (getProp t "label") (.str idv))
        some { id := idv, idx := n, label := labelv }
      | none => none
    else none

/-- Primitive-target branch of normalizeTarget: id exact → idx exact →
number exact → label-slug exact → finite numeric string as direct idx →
null. -/
def normalizeTargetPrim (hi : HeadingIndex) (t : JsVal) : Option HeadTarget :=
  let s := jsTrim (jsToString t)
  match assocGet hi.byId s with
  | some e => some (headEntryTarget e)
  | none =>
  match assocGet hi.byIdx s with
  | some e => some (headEntryTarget e)
  | none =>
  match assocGet hi.byNumber s with
  | some e => some (headEntryTarget e)
  | none =>
  let slug := slugS s
  match (if slug ≠ "" then assocGet hi.bySlug slug else none) with
  | some e => some (headEntryTarget e)
  | none =>
  match strToNumOpt s with
  | some n => (assocGet hi.byIdx (toString n)).map headEntryTarget
  | none => none

/-- rules-core.js buildHeadingTargetIndex(...).normalizeTarget(t). -/
def normalizeTarget (hi : HeadingIndex) (t : JsVal) : Option HeadTarget :=
  let pass := jsTruthy t || (match t with | JsVal.num (some 0) => true | _ => false)
  if ¬ pass then none
  else if isObjectLike t then normalizeTargetObj hi t
  else normalizeTargetPrim hi t

/-- An evaluator heading resolver: an object optionally exposing
normalizeTarget / resolveIdx functions (the source does typeof checks). -/
structure HeadingResolverM where
  normTarget : Option (JsVal → Option HeadTarget)
  resIdx : Option (JsVal → Option Int)

/-- rules-core.js parseTargetIdx(t, headingResolver); NaN is `none`. -/
def parseTargetIdx (t : JsVal) (hr : Option HeadingResolverM) : Option Int :=
  let viaResolver : Option Int :=
    match hr with
    | none => none
    | some r =>
      match (match r.normTarget with
             | some f => (f t).map (fun ht => ht.idx)
             | none => none) with
      | some n => some n
      | none =>
        match r.resIdx with
        | some g => g t
        | none => none
  match viaResolver with
  | some n => some n
  | none =>
    if jsNullish t then none
    else
      let s := jsToString t
      let head := (jsSplitOn s "|").headD s
      strToNumOpt head

/-- The resolver object buildHeadingTargetIndex returns (normalizeTarget and
resolveIdx members, as consumed by parseTargetIdx). -/
def headingIndexResolver (hi : HeadingIndex) : HeadingResolverM :=
  { normTarget := some (normalizeTarget hi)
    resIdx := some (fun t =>
      parseTargetIdx t (some { normTarget := some (normalizeTarget hi), resIdx := none })) }

/-- A value bag: a JS object as a key/value list. -/
abbrev Bag := List (String × JsVal)

/-- Object read on a bag, undefined when the key is absent. -/
def bagGet (vals : Bag) (k : String) : JsVal := (propLookup vals k).getD (.undef)

/-- hasOwnProperty on a bag. -/
def hasOwnB (out : Bag) (k : String) : Bool := (propLookup out k).isSome

/-- The strict test `v === ''`. -/
def isEmptyStrVal : JsVal → Bool
  | .str "" => true
  | _ => false

/-- typeof v === 'string'. -/
def isStrVal : JsVal → Bool
  | .str _ => true
  | _ => false

/-- First-occurrence-order string dedup, as `[...new Set(xs)]`. -/
def dedupStringsAux : List String → List String → List String
  | _, [] => []
  | seen, s :: rest =>
    if s ∈ seen then dedupStringsAux seen rest
    else s :: dedupStringsAux (s :: seen) rest

/-- `[...new Set(xs)]`. -/
def dedupStrings (l : List String) : List String := dedupStringsAux [] l

/-- One field of sanitizeValues. The only fallible branch is the `date` type on
a Date object: `v.toISOString()` throws RangeError "Invalid time value" on an
Invalid Date and that exception propagates (nothing in the source catches it). -/
def sanitizeOne (vals : Bag) (out : Bag) (f : FieldSchema) : Except String Bag :=
  let id := f.id
  let v := bagGet vals id
  let t := jsLower f.type
  if t = "datediff" then
    if jsTruthy v ∧ isObjectLike v then
      let fmt := jsToString (jsCoalesce (getProp v "formatted") (.str ""))
      let o : JsVal := .obj
        [("days", .num (jsToNumber (jsCoalesce (getProp v "days") (.num (some 0))))),
         ("months", .num (jsToNumber (jsCoalesce (getProp v "months") (.num (some 0))))),
         ("years", .num (jsToNumber (jsCoalesce (getProp v "years") (.num (some 0))))),
         ("formatted", .str fmt)]
      if fmt ≠ "" then .ok (propSet out id o) else .ok out
    else .ok out
  else if t = "number" then
    if isEmptyStrVal v ∨ jsNullish v then .ok out
    else
      match jsToNumber v with
      | some n => .ok (propSet out id (.num (some n)))
      | none => .ok out
  else if t = "switch" ∨ t = "checkbox" ∨ t = "boolean" then
    let b := match v with
      | .bool true => true
      | .str "true" => true
      | .num (some 1) => true
      | .str "1" => true
      | _ => false
    .ok (propSet out id (.bool b))
  else if t = "date" then
    if ¬ jsTruthy v then .ok out
    else
      match v with
      | .date none => .error "Invalid time value"
      | .date (some (y, m, d)) => .ok (propSet out id (.str (isoDateString y m d)))
      | _ => .ok (propSet out id (.str (jsToString v)))
  else if t = "multichoice" then
    let arr0 : List JsVal :=
      match v with
      | .arr xs => xs
      | _ => if jsNullish v ∨ isEmptyStrVal v then [] else [v]
    .ok (propSet out id (.arr ((dedupStrings (arr0.map jsToString)).map JsVal.str)))
  else if t = "select" then
    if jsNullish v then .ok out else .ok (propSet out id (.str (jsToString v)))
  else if t = "address" then
    if jsTruthy v ∧ isObjectLike v then
      let o := spreadToObj v
      let o :=
        if ¬ jsTruthy (getProp o "formatted") ∧ isStrVal (getProp v "formatted")
        then setProp o "formatted" (getProp v "formatted") else o
      .ok (propSet out id o)
    else if ¬ jsNullish v ∧ ¬ isEmptyStrVal v then
      .ok (propSet out id (.obj [("formatted", .str (jsToString v))]))
    else .ok out
  else
    if ¬ jsNullish v ∧ ¬ isEmptyStrVal v then .ok (propSet out id v) else .ok out

/-- Field pass of sanitizeValues, in schema order. -/
def sanitizeFieldsGo (vals : Bag) : List FieldSchema → Bag → Except String Bag
  | [], out => .ok out
  | f :: fs, out =>
    match sanitizeOne vals out f with
    | .error e => .error e
    | .ok out2 => sanitizeFieldsGo vals fs out2

/-- rules-core.js sanitizeValues(schema, vals): per-type coercion followed by
pass-through of the keys not already in the output. -/
def sanitizeValues (schema : FormSchema) (vals : Bag) : Except String Bag :=
  match sanitizeFieldsGo vals schema.fields [] with
  | .error e => .error e
  | .ok out =>
    .ok (vals.foldl (fun o kv => if hasOwnB o kv.1 then o else propSet o kv.1 kv.2) out)

/-- String.prototype.includes, allowing the empty needle. -/
def strIncludesE (s needle : String) : Bool :=
  if needle = "" then true else strIncludes s needle

/-- rules-core.js ruleMatchesValue(op, expected, actual, fieldType). -/
def ruleMatchesValue (op expected actual : JsVal) (fieldType : String) : Bool :=
  let t := jsLower fieldType
  let opS := jsToString (jsOr op (.str "equals"))
  if opS = "isEmpty" then
    match actual with
    | .arr xs => xs.isEmpty
    | a => jsNullish a || isEmptyStrVal a
  else if opS = "isNotEmpty" then
    match actual with
    | .arr xs => ¬ xs.isEmpty
    | a => ¬ (jsNullish a || isEmptyStrVal a)
  else if opS = "equals" then jsToString actual == jsToString expected
  else if opS = "notEquals" then jsToString actual != jsToString expected
  else if opS = "anyOf" then
    let earr := match expected with | .arr xs => xs.map jsToString | e => [jsToString e]
    match actual with
    | .arr xs => (xs.map jsToString).any (fun v => earr.contains v)
    | a => earr.contains (jsToString a)
  else if opS = "allOf" then
    let earr := match expected with | .arr xs => xs.map jsToString | e => [jsToString e]
    match actual with
    | .arr xs =>
      let got := xs.map jsToString
      earr.all (fun v => got.contains v)
    | _ => false
  else if opS = "contains" ∧ t = "text" then
    let s := jsLower (jsToString (jsCoalesce actual (.str "")))
    let e := jsLower (jsToString (jsCoalesce expected (.str "")))
    strIncludesE s e
  else if opS = "gt" ∨ opS = "lt" ∨ opS = "gte" ∨ opS = "lte" then
    let na := jsToNumber actual
    let ne := jsToNumber (match expected with | .arr xs => xs.headD .undef | e => e)
    match na, ne with
    | some a, some b =>
      if opS = "gt" then a > b
      else if opS = "lt" then a < b
      else if opS = "gte" then a ≥ b
      else a ≤ b
    | _, _ => false
  else false

/-- The (actual value, semantic type) pair the evaluators resolve for a rule
trigger or condition reference. -/
structure ResolvedRef where
  actual : JsVal
  rtype : String

/-- Plain-field branch of resolveRefActualAndType. -/
def plainRefResolve (schema : FormSchema) (cv : Bag) (ref : JsVal) : ResolvedRef :=
  let baseId := jsToString (jsCoalesce ref (.str ""))
  let fld := schema.fields.find? (fun f => f.id = baseId)
  { actual := bagGet cv baseId, rtype := jsLower ((fld.map (fun f => f.type)).getD "") }

/-- resolveRefActualAndType, the identical local helper of
evaluateRulesToVisibility and evaluateFieldRulesToVisibility: an option
composite reference yields the boolean selection state ("true"/"false", type
boolean); a plain reference yields the sanitized value and declared type.
(The source's select and non-select scalar branches are textually identical;
they are shared below.) -/
def resolveRefActualAndType (schema : FormSchema) (cv : Bag) (ref : JsVal) : ResolvedRef :=
  match __parseOptionFieldRef schema ref with
  | some p =>
    if p.kind = "option" then
      let raw := jsToString (jsCoalesce ref (.str ""))
      let baseId :=
        if p.fieldId ≠ "" then p.fieldId
        else if ((jsSplitOn raw "__opt__").headD "") ≠ "" then (jsSplitOn raw "__opt__").headD ""
        else ""
      let fld := schema.fields.find? (fun f => f.id = baseId)
      let ft := jsLower ((fld.map (fun f => f.type)).getD "")
      let av := bagGet cv baseId
      let selected :=
        if ft = "multichoice" then
          let arrv : List String :=
            match av with
            | .arr xs => xs.map jsToString
            | a => if ¬ jsNullish a ∧ ¬ isEmptyStrVal a then [jsToString a] else []
          let sel0 := match p.optionValue with
            | some wv => arrv.contains wv
            | none => false
          if sel0 then true
          else
            match p.optionSlug with
            | some ws => if ws ≠ "" then (arrv.map slugS).contains (slugS ws) else false
            | none => false
        else
          let s := if jsNullish av then "" else jsToString av
          let sel0 := match p.optionValue with
            | some wv => s == wv
            | none => false
          if sel0 then true
          else
            match p.optionSlug with
            | some ws => if ws ≠ "" then slugS s == slugS ws else false
            | none => false
      { actual := .str (if selected then "true" else "false"), rtype := "boolean" }
    else plainRefResolve schema cv ref
  | none => plainRefResolve schema cv ref

/-- ISO "YYYY-MM-DD" date-string parse: the model of `new Date(String(s))`
for the canonical strings sanitizeValues produces (other host-parsable
formats are treated as unparsable). Month is returned 0-based. -/
def parseDateString (s : String) : Option (Int × Nat × Nat) :=
  match jsSplitOn s "-" with
  | [ys, ms, ds] =>
    match digitsToNat ys.data, digitsToNat ms.data, digitsToNat ds.data with
    | some y, some m, some d =>
      if 1 ≤ m ∧ m ≤ 12 ∧ 1 ≤ d ∧ d ≤ 31 then some ((y : Int), m - 1, d) else none
    | _, _, _ => none
  | _ => none

/-- Injective, calendar-monotone encoding of a UTC day, standing in for the
Date.UTC millisecond value (only equality/order are consumed). -/
def dayEncode (y : Int) (m d : Nat) : Int := (y * 12 + (m : Int)) * 32 + (d : Int)

/-- The evaluators' local toDay(s): falsy → NaN, Invalid Date → NaN, else the
UTC calendar-day number. -/
def toDay (v : JsVal) : Option Int :=
  if ¬ jsTruthy v then none
  else
    match v with
    | .date none => none
    | .date (some (y, m, d)) => some (dayEncode y m d)
    | s =>
      match parseDateString (jsToString s) with
      | some (y, m, d) => some (dayEncode y m d)
      | none => none

/-- Steps 3 of the evaluation loop: the date-typed comparison branch, else the
generic matcher. `op` is the raw `r.op || r.operator || 'equals'` value (the
date branch compares it with === against operator names). -/
def ruleBaseMatch (op exp : JsVal) (rr : ResolvedRef) : Bool :=
  if rr.rtype = "date" then
    let expStr := match exp with
      | .arr xs => jsToString (jsCoalesce (xs.headD .undef) (.str ""))
      | e => jsToString (jsCoalesce e (.str ""))
    match toDay rr.actual, toDay (.str expStr) with
    | some a, some b =>
      (match op with
       | .str "equals" => a == b
       | .str "gt" => a > b
       | .str "lt" => a < b
       | .str "gte" => a ≥ b
       | .str "lte" => a ≤ b
       | _ => false)
    | _, _ => false
  else ruleMatchesValue op exp rr.actual rr.rtype

/-- Step 4: one AND-condition holds (falsy reference fails the rule). -/
def condOk (schema : FormSchema) (cv : Bag) (c : JsVal) : Bool :=
  let cid := jsCoalesce (getProp c "fieldId")
    (jsCoalesce (getProp c "leftFieldId") (getProp c "rightFieldId"))
  if ¬ jsTruthy cid then false
  else
    let rrc := resolveRefActualAndType schema cv cid
    let cop := jsOr (getProp c "op") (jsOr (getProp c "operator") (.str "equals"))
    let cexp := jsCoalesce (getProp c "values")
      (jsCoalesce (getProp c "value") (getProp c "expected"))
    ruleMatchesValue cop cexp rrc.actual rrc.rtype

/-- Steps 2–4 of the evaluation loop for one rule: resolve the trigger, base
match, then AND-conditions. -/
def ruleMatches (schema : FormSchema) (cv : Bag) (r : JsVal) : Bool :=
  let fieldRef := jsOr (getProp r "fieldId") (jsOr (getProp r "field") (getProp r "whenField"))
  let op := jsOr (getProp r "op") (jsOr (getProp r "operator") (.str "equals"))
  let exp := jsCoalesce (getProp r "values") (jsCoalesce (getProp r "value") (getProp r "expected"))
  let rr := resolveRefActualAndType schema cv fieldRef
  if ruleBaseMatch op exp rr then
    match getProp r "conditions" with
    | .arr cs => if cs.length ≠ 0 then cs.all (condOk schema cv) else true
    | _ => true
  else false

/-- A visibility write action: SHOW, or HIDE with its effect string
("HIDE"/"DISABLE" in the field pass, always "HIDE" in the heading pass). -/
inductive WAct where
  | showAct : WAct
  | hideAct (eff : String) : WAct
deriving DecidableEq, Repr

/-- What one rule contributes to the output map: nothing when skipped or not
matching, else the action and the written keys, in target order. This is the
per-rule slice of the evaluation loop; it does not depend on the map. -/
def headingOutcome (schema : FormSchema) (cv : Bag) (hr : Option HeadingResolverM)
    (r : JsVal) : Option (WAct × List String) :=
  if ¬ jsTruthy r then none
  else
    let actS := jsUpper (jsToString (jsOr (getProp r "action") (.str "")))
    if actS ≠ "SHOW" ∧ actS ≠ "HIDE" then none
    else
      let fieldRef := jsOr (getProp r "fieldId") (jsOr (getProp r "field") (getProp r "whenField"))
      if ¬ jsTruthy fieldRef then none
      else if ruleMatches schema cv r then
        let targets := match getProp r "targets" with | .arr xs => xs | _ => []
        let keys := targets.filterMap (fun t => (parseTargetIdx t hr).map toString)
        some ((if actS = "SHOW" then WAct.showAct else WAct.hideAct "HIDE"), keys)
      else none

/-- Field-pass analogue of headingOutcome: keys are the target id strings
(`t?.id ?? t?.fieldId ?? t?.key ?? ''`, empty skipped) and the HIDE effect is
chosen by hideMode. -/
def fieldOutcome (schema : FormSchema) (cv : Bag) (r : JsVal) : Option (WAct × List String) :=
  if ¬ jsTruthy r then none
  else
    let actS := jsUpper (jsToString (jsOr (getProp r "action") (.str "")))
    if actS ≠ "SHOW" ∧ actS ≠ "HIDE" then none
    else
      let fieldRef := jsOr (getProp r "fieldId") (jsOr (getProp r "field") (getProp r "whenField"))
      let effect :=
        if jsLower (jsToString (jsOr (getProp r "hideMode") (.str "hide"))) = "disable"
        then "DISABLE" else "HIDE"
      if ¬ jsTruthy fieldRef then none
      else if ruleMatches schema cv r then
        let targets := match getProp r "targets" with | .arr xs => xs | _ => []
        let keys := targets.filterMap (fun t =>
          let idv := jsToString (jsCoalesce (getProp t "id")
            (jsCoalesce (getProp t "fieldId") (jsCoalesce (getProp t "key") (.str ""))))
          if idv = "" then none else some idv)
        some ((if actS = "SHOW" then WAct.showAct else WAct.hideAct effect), keys)
      else none

/-- A visibility map, keyed by heading-idx string or field/option id. -/
abbrev VisMap := List (String × String)

/-- Map read. -/
def lookupv (m : VisMap) (k : String) : Option String := assocGet m k

/-- Map write. -/
def setv (m : VisMap) (k v : String) : VisMap := assocSet m k v

/-- Step 5's per-target write: SHOW overwrites unconditionally; HIDE writes
its effect only when the existing entry is not SHOW. -/
def writeKey (a : WAct) (m : VisMap) (k : String) : VisMap :=
  match a with
  | .showAct => setv m k "SHOW"
  | .hideAct e => if lookupv m k = some "SHOW" then m else setv m k e

/-- Apply one rule's outcome to the map. -/
def applyOutcome (oc : Option (WAct × List String)) (m : VisMap) : VisMap :=
  match oc with
  | none => m
  | some (a, ks) => ks.foldl (writeKey a) m

/-- The deterministic fold of one evaluation pass. -/
def evalSteps (outcome : JsVal → Option (WAct × List String)) (m : VisMap)
    (rules : List JsVal) : VisMap :=
  rules.foldl (fun m r => applyOutcome (outcome r) m) m

/-- rules-core.js evaluateRulesToVisibility(schema, values, rules,
headingResolver): the heading pass. An empty rule list returns the empty map
before values are sanitized. -/
def evaluateRulesToVisibility (schema : FormSchema) (values : Bag) (rules : List JsVal)
    (hr : Option HeadingResolverM) : Except String VisMap :=
  if rules.isEmpty then .ok []
  else
    match sanitizeValues schema values with
    | .error e => .error e
    | .ok cv => .ok (evalSteps (headingOutcome schema cv hr) [] rules)

/-- rules-core.js evaluateFieldRulesToVisibility(schema, values, rules): the
field/option pass. -/
def evaluateFieldRulesToVisibility (schema : FormSchema) (values : Bag)
    (rules : List JsVal) : Except String VisMap :=
  if rules.isEmpty then .ok []
  else
    match sanitizeValues schema values with
    | .error e => .error e
    | .ok cv => .ok (evalSteps (fieldOutcome schema cv) [] rules)

/-- The target descriptor object normalizeTarget hands back to the heading
normalizer. -/
def headTargetJs (ht : HeadTarget) : JsVal :=
  .obj [("id", .str ht.id), ("idx", .num (some ht.idx)), ("label", .str ht.label)]

/-- The trigger-fallback of steps 1–3: if the (possibly rewritten) trigger
reference no longer resolves, point fieldId (and present field/whenField)
back at the originally resolved field id. -/
def applyTriggerFallback (schema : FormSchema) (resolvedField : FieldSchema)
    (r0 : JsVal) : JsVal :=
  let refAfterCoerce := jsCoalesce (getProp r0 "fieldId")
    (jsCoalesce (getProp r0 "field") (getProp r0 "whenField"))
  if (__resolveFieldRef schema refAfterCoerce).isNone then
    let fallbackId := resolvedField.id
    let r1 := setProp r0 "fieldId" (.str fallbackId)
    let r1 := if ¬ jsNullish (getProp r1 "field")
              then setProp r1 "field" (.str fallbackId) else r1
    if ¬ jsNullish (getProp r1 "whenField")
    then setProp r1 "whenField" (.str fallbackId) else r1
  else r0

/-- Step 4: drop AND-conditions whose reference fails resolution (when the
conditions property is an array). -/
def filterRuleConditions (schema : FormSchema) (r0 : JsVal) : JsVal :=
  match getProp r0 "conditions" with
  | .arr cs => setProp r0 "conditions" (.arr (cs.filter (fun c =>
      let ref := jsCoalesce (getProp c "fieldId")
        (jsCoalesce (getProp c "leftFieldId") (getProp c "rightFieldId"))
      if ¬ jsTruthy ref then false else (__resolveFieldRef schema ref).isSome)))
  | _ => r0

/-- Steps 1–3 shared by both normalizers, applied to one raw rule: resolve
the trigger (drop if unresolved), multichoice/select values coercion,
option-composite trigger rewrite, fallback to the originally resolved field
id, and conditions filtering. Returns the resolved trigger field and the
partially normalized rule. -/
def normalizeRuleCommon (schema : FormSchema) (raw : JsVal) : Option (FieldSchema × JsVal) :=
  if ¬ jsTruthy raw then none
  else
    match __resolveFieldRef schema (jsCoalesce (getProp raw "fieldId")
      (jsCoalesce (getProp raw "field") (getProp raw "whenField"))) with
    | none => none
    | some resolvedField =>
      some (resolvedField, filterRuleConditions schema
        (applyTriggerFallback schema resolvedField
          (__normalizeWhenOptionRefAgainstSchema schema
            (__coerceRuleForMultichoiceOption (spreadToObj raw) (some resolvedField)))))

/-- One rule of normalizeHeadingsRulesForSchema: after the common steps,
targets (when an array) are passed through normalizeTarget with the raw
target kept on a miss (`normalizeTarget(t) || t`), nullish entries dropped;
with no baseline at all targets are preserved verbatim (nullish dropped).
There is no fallback target. -/
def normHeadingRule (schema : FormSchema) (headingIndex : HeadingIndex) (raw : JsVal) :
    Option JsVal :=
  match normalizeRuleCommon schema raw with
  | none => none
  | some (_, r0) =>
    match getProp r0 "targets" with
    | .arr ts =>
      let hasBaseline := ¬ headingIndex.flat.isEmpty
      if ¬ hasBaseline then
        some (setProp r0 "targets" (.arr (ts.filter (fun t => ¬ jsNullish t))))
      else
        some (setProp r0 "targets" (.arr ((ts.map (fun t =>
          match normalizeTarget headingIndex t with
          | some ht => headTargetJs ht
          | none => t)).filter (fun t => ¬ jsNullish t))))
    | _ => some r0

/-- rules-core.js normalizeHeadingsRulesForSchema(schema, rulesIn,
headingBaseline). -/
def normalizeHeadingsRulesForSchema (schema : FormSchema) (rulesIn : JsVal)
    (headingBaseline : JsVal) : List JsVal :=
  let rules := match rulesIn with | .arr xs => xs | _ => []
  let headingIndex := buildHeadingTargetIndex
    (jsOr headingBaseline (.obj [("flat", .arr []), ("tree", .arr [])]))
  rules.filterMap (normHeadingRule schema headingIndex)

/-- Field-domain resolution of one raw target (the body of the target loop of
normalizeFieldRulesForSchema); `none` means nothing is pushed. `pf` is the
trigger field's option record. -/
def fieldTargetOf (optionIndex : List (String × OptionRec))
    (fieldIndex : List (String × FieldSchema)) (pf : Option OptionRec)
    (resolvedField : FieldSchema) (t : JsVal) : Option JsVal :=
  if jsTruthy t ∧ isObjectLike t ∧
     (¬ jsNullish (getProp t "optionValue") ∨ ¬ jsNullish (getProp t "optionLabel")) then
    let fieldId := jsToString (jsCoalesce (getProp t "id") (.str resolvedField.id))
    let optVal := jsToString (jsCoalesce (getProp t "optionValue") (.str ""))
    let optLab := jsToString (jsCoalesce (getProp t "optionLabel") (.str optVal))
    let parentLabel :=
      match assocGet fieldIndex fieldId with
      | some f => if f.label ≠ "" then f.label else fieldId
      | none => fieldId
    let slug := slugS (if optLab ≠ "" then optLab else optVal)
    some (.obj
      [("id", .str (fieldId ++ "__opt__" ++ slug)),
       ("fieldId", .str fieldId),
       ("optionValue", .str optVal),
       ("optionLabel", .str optLab),
       ("label", jsOr (getProp t "label")
         (.str (parentLabel ++ ": " ++ (if optLab ≠ "" then optLab else optVal))))])
  else
    match t with
    | .str s0 =>
      let s := jsTrim s0
      let viaOpt : Option JsVal :=
        if strIncludes s "__opt__" then
          let maybeId := (jsSplitOn s "__opt__").headD ""
          let slugIn := ((jsSplitOn s "__opt__").get? 1).getD ""
          let cat := match assocGet optionIndex maybeId with
            | some c => some c
            | none => pf
          match cat with
          | some c =>
            if c.options ≠ [] then
              match c.options.find? (fun o => o.slug == slugS slugIn) with
              | some hit => some (.obj
                  [("id", .str (c.id ++ "__opt__" ++ hit.slug)),
                   ("fieldId", .str c.id),
                   ("optionValue", .str hit.value),
                   ("optionLabel", .str hit.label),
                   ("label", .str (c.label ++ ": " ++ hit.label))])
              | none => none
            else none
          | none => none
        else none
      match viaOpt with
      | some d => some d
      | none =>
        let viaColon : Option JsVal :=
          if strIncludes s ":" then
            let lhs := jsTrim ((jsSplitOn s ":").headD "")
            let rhs := jsTrim (((jsSplitOn s ":").get? 1).getD "")
            let cat0 := assocGet optionIndex lhs
            let cat1 := match cat0 with
              | some c => some c
              | none => (optionIndex.find? (fun kv => slugS kv.2.label == slugS lhs)).map
                          (fun kv => kv.2)
            let cat := match cat1 with | some c => some c | none => pf
            match cat with
            | some c =>
              if c.options ≠ [] then
                match c.options.find? (fun o =>
                  slugS o.label == slugS rhs || slugS o.value == slugS rhs) with
                | some hit => some (.obj
                    [("id", .str (c.id ++ "__opt__" ++ hit.slug)),
                     ("fieldId", .str c.id),
                     ("optionValue", .str hit.value),
                     ("optionLabel", .str hit.label),
                     ("label", .str (c.label ++ ": " ++ hit.label))])
                | none => none
              else none
            | none => none
          else none
        match viaColon with
        | some d => some d
        | none =>
          match assocGet fieldIndex s with
          | some f => some (.obj
              [("id", .str f.id), ("fieldId", .str f.id),
               ("label", .str (if f.label ≠ "" then f.label else f.id))])
          | none =>
            match fieldIndex.find? (fun kv =>
              slugS (if kv.2.label ≠ "" then kv.2.label else kv.2.id) == slugS s) with
            | some kv => some (.obj
                [("id", .str kv.2.id), ("fieldId", .str kv.2.id),
                 ("label", .str (if kv.2.label ≠ "" then kv.2.label else kv.2.id))])
            | none => none
    | _ =>
      if jsTruthy t ∧ isObjectLike t then
        let idv := jsToString (jsCoalesce (getProp t "id") (jsCoalesce (getProp t "fieldId") (.str "")))
        match assocGet fieldIndex idv with
        | some f => some (.obj
            [("id", .str idv), ("fieldId", .str idv),
             ("label", jsOr (getProp t "label") (.str (if f.label ≠ "" then f.label else idv)))])
        | none => none
      else none

/-- One rule of normalizeFieldRulesForSchema: the common steps, then the
target loop, then the trigger-field fallback when no target resolved. -/
def normFieldRule (schema : FormSchema) (optionIndex : List (String × OptionRec))
    (fieldIndex : List (String × FieldSchema)) (raw : JsVal) : Option JsVal :=
  match normalizeRuleCommon schema raw with
  | none => none
  | some (resolvedField, r0) =>
    let tIn := match getProp r0 "targets" with | .arr xs => xs | _ => []
    let pf := assocGet optionIndex resolvedField.id
    let normTargets := tIn.filterMap (fieldTargetOf optionIndex fieldIndex pf resolvedField)
    let normTargets :=
      if normTargets.isEmpty then
        [JsVal.obj
          [("id", .str resolvedField.id), ("fieldId", .str resolvedField.id),
           ("label", .str (if resolvedField.label ≠ "" then resolvedField.label
                           else resolvedField.id))]]
      else normTargets
    some (setProp r0 "targets" (.arr normTargets))

/-- rules-core.js normalizeFieldRulesForSchema(schema, rulesIn). -/
def normalizeFieldRulesForSchema (schema : FormSchema) (rulesIn : JsVal) : List JsVal :=
  let rules := match rulesIn with | .arr xs => xs | _ => []
  let optionIndex := __buildOptionIndex schema
  let fieldIndex := schema.fields.foldl (fun m f => assocSet m f.id f) []
  rules.filterMap (normFieldRule schema optionIndex fieldIndex)

/-- The effect of one write action on one map entry (the per-key view of
step 5: SHOW overwrites, HIDE keeps an existing SHOW). -/
def writeVal (a : WAct) (o : Option String) : Option String :=
  match a with
  | .showAct => some "SHOW"
  | .hideAct e => if o = some "SHOW" then o else some e

/-- The write a single rule makes to the key `k` (if any). -/
def keyActOf (oc : JsVal → Option (WAct × List String)) (k : String) (r : JsVal) :
    Option WAct :=
  match oc r with
  | none => none
  | some (a, ks) => if k ∈ ks then some a else none

/-- Fold a sequence of per-entry writes. -/
def applyActs (o : Option String) (acts : List WAct) : Option String :=
  acts.foldl (fun o a => writeVal a o) o

/-- Collapse a map entry to SHOW (0) / hidden-or-disabled (1) / absent (2). -/
def projStatus : Option String → Nat
  | some s => if s = "SHOW" then 0 else 1
  | none => 2

/-- Hide-action test. -/
def isHideAct : WAct → Bool
  | .hideAct _ => true
  | _ => false

/-- Ok test for evaluator results. -/
def exceptOkB : Except String VisMap → Bool
  | .ok _ => true
  | .error _ => false

/-- The precondition under which sanitizeValues cannot throw: no date-typed
field holds an Invalid Date object. -/
def sanitizeSafe (schema : FormSchema) (vals : Bag) : Bool :=
  schema.fields.all (fun f =>
    !(jsLower f.type == "date" &&
      (match bagGet vals f.id with | JsVal.date none => true | _ => false)))

/-- Fixture: a plain text field `f`. -/
def exTextField : FieldSchema :=
  { id := "f", label := "F", type := "text", options := [], mcGroups := [] }

/-- Fixture: a one-field schema. -/
def exSchemaF : FormSchema := ⟨[exTextField]⟩

/-- Fixture: value bag `{f: "x"}`. -/
def exValsX : Bag := [("f", .str "x")]

/-- Fixture: matching HIDE rule (default hideMode) targeting field id `g`. -/
def exHideRule : JsVal := .obj
  [("action", .str "HIDE"), ("fieldId", .str "f"), ("op", .str "equals"),
   ("values", .str "x"), ("targets", .arr [.obj [("id", .str "g")]])]

/-- Fixture: matching HIDE rule with hideMode disable targeting `g`. -/
def exDisableRule : JsVal := .obj
  [("action", .str "HIDE"), ("fieldId", .str "f"), ("op", .str "equals"),
   ("values", .str "x"), ("hideMode", .str "disable"),
   ("targets", .arr [.obj [("id", .str "g")]])]

/-- Fixture: matching SHOW rule targeting `g`. -/
def exShowRule : JsVal := .obj
  [("action", .str "SHOW"), ("fieldId", .str "f"), ("op", .str "equals"),
   ("values", .str "x"), ("targets", .arr [.obj [("id", .str "g")]])]

/-- Fixture: matching SHOW rule with primitive heading target 5. -/
def exShowRuleH : JsVal := .obj
  [("action", .str "SHOW"), ("fieldId", .str "f"), ("op", .str "equals"),
   ("values", .str "x"), ("targets", .arr [.num (some 5)])]

/-- Fixture: matching HIDE rule with primitive heading target 5. -/
def exHideRuleH : JsVal := .obj
  [("action", .str "HIDE"), ("fieldId", .str "f"), ("op", .str "equals"),
   ("values", .str "x"), ("targets", .arr [.num (some 5)])]

/-- Fixture: a date-typed field `d`. -/
def exDateField : FieldSchema :=
  { id := "d", label := "D", type := "date", options := [], mcGroups := [] }

/-- Fixture: schema with the date field. -/
def exSchemaD : FormSchema := ⟨[exDateField]⟩

/-- Fixture: bag with an Invalid Date under `d`. -/
def exValsBadDate : Bag := [("d", .date none)]

/-- Fixture: rule with an empty targets array. -/
def exEmptyTargetsRule : JsVal := .obj [("fieldId", .str "f"), ("targets", .arr [])]

/-- Fixture: field with id "a". -/
def c6FieldA : FieldSchema :=
  { id := "a", label := "Alpha", type := "text", options := [], mcGroups := [] }

/-- Fixture: field whose id contains the option delimiter. -/
def c6FieldAB : FieldSchema :=
  { id := "a__opt__b", label := "AB", type := "text", options := [], mcGroups := [] }

/-- Fixture: schema with both fields. -/
def c6Schema : FormSchema := ⟨[c6FieldA, c6FieldAB]⟩

/-- Fixture: heading baseline [idx 10 Intro, idx 25 Scope]. -/
def c7Baseline1 : JsVal := .arr
  [.obj [("idx", .num (some 10)), ("label", .str "Intro")],
   .obj [("idx", .num (some 25)), ("label", .str "Scope")]]

/-- Fixture: the same baseline entries in the other order. -/
def c7Baseline2 : JsVal := .arr
  [.obj [("idx", .num (some 25)), ("label", .str "Scope")],
   .obj [("idx", .num (some 10)), ("label", .str "Intro")]]

/-- Fixture: multichoice field f4 with option {value N, label North}. -/
def c9Field : FieldSchema :=
  { id := "f4", label := "F4", type := "multichoice",
    options := [.obj [("value", .str "N"), ("label", .str "North")]], mcGroups := [] }

/-- Fixture: schema with f4. -/
def c9Schema : FormSchema := ⟨[c9Field]⟩

/-- Fixture: SHOW rule whose trigger reference is the option composite. -/
def c9Rule : JsVal := .obj [("action", .str "SHOW"), ("fieldId", .str "f4__opt__north")]

/-- Fixture: value bag {f4: [N, E]}. -/
def c9Vals : Bag := [("f4", .arr [.str "N", .str "E"])]

/-- C1 counterexample: the claim "evaluateFieldRulesToVisibility produces an
identical VisibilityMap under any permutation" is false. Two matching HIDE
rules on the same target, one with hideMode "disable", give DISABLE in one
order and HIDE in the other: the field pass is not order-independent in the
hideMode effect. -/
theorem c1_counterexample :
    ([exHideRule, exDisableRule].Perm [exDisableRule, exHideRule])
  ∧ evaluateFieldRulesToVisibility exSchemaF exValsX [exHideRule, exDisableRule] =
      .ok [("g", "DISABLE")]
  ∧ evaluateFieldRulesToVisibility exSchemaF exValsX [exDisableRule, exHideRule] =
      .ok [("g", "HIDE")]
  ∧ ("DISABLE" : String) ≠ "HIDE" :=
  ⟨List.Perm.swap exDisableRule exHideRule [], rfl, rfl, by decide⟩

/-- C2 counterexample: the claim "no operation throws for every input" is
false. An Invalid Date object under a date-typed field makes sanitizeValues
call toISOString, which throws RangeError "Invalid time value"; the exception
propagates through both evaluators (non-empty rule list). -/
theorem c2_counterexample :
    sanitizeValues exSchemaD exValsBadDate = .error "Invalid time value"
  ∧ evaluateRulesToVisibility exSchemaD exValsBadDate [exHideRuleH] none =
      .error "Invalid time value"
  ∧ evaluateFieldRulesToVisibility exSchemaD exValsBadDate [exHideRule] =
      .error "Invalid time value" :=
  ⟨rfl, rfl, rfl⟩

/-- C4 counterexample: the claim "every rule emitted by normalization has a
non-empty targets list" is false for normalizeHeadingsRulesForSchema: a rule
with an empty targets array is emitted with targets still empty (no
trigger-field fallback in the heading variant). -/
theorem c4_counterexample :
    normalizeHeadingsRulesForSchema exSchemaF (.arr [exEmptyTargetsRule]) .null =
      [.obj [("fieldId", .str "f"), ("targets", .arr [])]]
  ∧ getProp (.obj [("fieldId", .str "f"), ("targets", .arr [])]) "targets" = .arr [] :=
  ⟨rfl, rfl⟩

/-- C5 counterexample: the claim "an unmatched object target that carries an
idx or a label is synthesized rather than discarded" is false for a
label-only target: with an empty baseline, {label: "Foo"} matches nothing,
carries a truthy label, and normalizeTarget still returns null (the
synthesis fallback requires a finite idx). -/
theorem c5_counterexample :
    normalizeTarget (buildHeadingTargetIndex .null) (.obj [("label", .str "Foo")]) = none
  ∧ jsTruthy (getProp (.obj [("label", .str "Foo")]) "label") = true :=
  ⟨rfl, rfl⟩

/-- C6 counterexample: resolver identity fails for an id containing
"__opt__": with fields "a" and "a__opt__b" in the schema,
resolveFieldRef(schema, "a__opt__b") returns the field "a" (the prefix before
"__opt__" wins), not the field whose id was given. -/
theorem c6_counterexample :
    (__resolveFieldRef c6Schema (.str c6FieldAB.id)).map (fun f => f.id) = some "a"
  ∧ c6FieldAB.id ≠ "a" :=
  ⟨rfl, by decide⟩

/-- C7 (confirmed): with baseline entries of explicit idx 10 ('Intro') and 25
('Scope'), normalizeTarget(25) resolves to the idx-25 entry in either array
order — the number is looked up as a stable idx key, never as an array
position. -/
theorem c7_heading_idx_stability :
    normalizeTarget (buildHeadingTargetIndex c7Baseline1) (.num (some 25)) =
      some { id := "sec_000025", idx := 25, label := "Scope" }
  ∧ normalizeTarget (buildHeadingTargetIndex c7Baseline2) (.num (some 25)) =
      some { id := "sec_000025", idx := 25, label := "Scope" } :=
  ⟨rfl, rfl⟩

/-- C9 (confirmed): the rule with trigger reference "f4__opt__north" is
rewritten by normalization to trigger field f4, op anyOf, values ["N"]; it
matches values {f4: ["N","E"]} (both through ruleMatchesValue and through the
full field evaluation, which maps the defaulted target f4 to SHOW). -/
theorem c9_option_ref_normalization :
    ((normalizeFieldRulesForSchema c9Schema (.arr [c9Rule])).map
        (fun r => getProp r "fieldId")) = [.str "f4"]
  ∧ ((normalizeFieldRulesForSchema c9Schema (.arr [c9Rule])).map
        (fun r => getProp r "op")) = [.str "anyOf"]
  ∧ ((normalizeFieldRulesForSchema c9Schema (.arr [c9Rule])).map
        (fun r => getProp r "values")) = [.arr [.str "N"]]
  ∧ ruleMatchesValue (.str "anyOf") (.arr [.str "N"]) (.arr [.str "N", .str "E"])
      "multichoice" = true
  ∧ evaluateFieldRulesToVisibility c9Schema c9Vals
      (normalizeFieldRulesForSchema c9Schema (.arr [c9Rule])) = .ok [("f4", "SHOW")] :=
  ⟨rfl, rfl, rfl, rfl, rfl⟩

/-- Lookup after an update-or-append write. -/
theorem assocGet_assocSet {α : Type} (m : List (String × α)) (k k2 : String) (v : α) :
    assocGet (assocSet m k v) k2 = if k2 = k then some v else assocGet m k2 := by
  induction m with
  | nil =>
    simp only [assocSet, assocGet]
    by_cases h : k = k2
    · rw [if_pos h, if_pos h.symm]
    · rw [if_neg h, if_neg (fun hh => h hh.symm)]
  | cons kv rest ih =>
    obtain ⟨k0, v0⟩ := kv
    by_cases h0 : k0 = k
    · subst h0
      simp only [assocSet, if_pos rfl, assocGet]
      by_cases h2 : k0 = k2
      · rw [if_pos h2, if_pos h2.symm]
      · rw [if_neg h2, if_neg (fun hh => h2 hh.symm), if_neg h2]
    · simp only [assocSet, if_neg h0, assocGet]
      by_cases h2 : k0 = k2
      · have hk : ¬ k2 = k := fun hh => h0 (h2.trans hh)
        rw [if_pos h2, if_neg hk, if_pos h2]
      · rw [if_neg h2, ih]
        by_cases hk : k2 = k
        · rw [if_pos hk, if_pos hk]
        · rw [if_neg hk, if_neg hk, if_neg h2]

/-- A write never erases an existing SHOW. -/
theorem writeVal_show (a : WAct) : writeVal a (some "SHOW") = some "SHOW" := by
  cases a <;> simp [writeVal]

/-- Per-entry writes are idempotent. -/
theorem writeVal_idem (a : WAct) (o : Option String) :
    writeVal a (writeVal a o) = writeVal a o := by
  cases a with
  | showAct => simp [writeVal]
  | hideAct e =>
    simp only [writeVal]
    split
    · simp [*]
    · by_cases he : (some e : Option String) = some "SHOW" <;> simp [he]

/-- writeKey acts on exactly one entry, as writeVal. -/
theorem lookupv_writeKey (a : WAct) (m : VisMap) (k k2 : String) :
    lookupv (writeKey a m k) k2 =
      if k2 = k then writeVal a (lookupv m k2) else lookupv m k2 := by
  cases a with
  | showAct =>
    simp only [writeKey, lookupv, setv, writeVal]
    exact assocGet_assocSet m k k2 "SHOW"
  | hideAct e =>
    simp only [writeKey]
    split
    · rename_i hsh
      by_cases h2 : k2 = k
      · subst h2
        simp [writeVal, lookupv] at hsh ⊢
        simp [hsh]
      · simp [h2]
    · rename_i hsh
      simp only [lookupv, setv] at *
      rw [assocGet_assocSet]
      by_cases h2 : k2 = k
      · subst h2; simp [writeVal, hsh]
      · simp [h2]

/-- A rule's inner target fold, viewed at one key. -/
theorem lookupv_foldWrites (a : WAct) (ks : List String) (m : VisMap) (k : String) :
    lookupv (ks.foldl (writeKey a) m) k =
      if k ∈ ks then writeVal a (lookupv m k) else lookupv m k := by
  induction ks generalizing m with
  | nil => simp
  | cons k0 ks ih =>
    simp only [List.foldl_cons]
    rw [ih]
    by_cases hk : k ∈ ks
    · rw [if_pos hk, if_pos (List.mem_cons_of_mem k0 hk), lookupv_writeKey]
      by_cases he : k = k0
      · rw [if_pos he, writeVal_idem]
      · rw [if_neg he]
    · rw [if_neg hk, lookupv_writeKey]
      by_cases he : k = k0
      · rw [if_pos he, if_pos (he ▸ List.mem_cons_self k ks)]
      · rw [if_neg he, if_neg (by simp [List.mem_cons, he, hk])]

/-- One evaluation pass, viewed at one key: the entry is the fold of the
writes its matching rules make to that key, in rule order. -/
theorem lookupv_evalSteps (oc : JsVal → Option (WAct × List String))
    (rules : List JsVal) (m : VisMap) (k : String) :
    lookupv (evalSteps oc m rules) k =
      applyActs (lookupv m k) (rules.filterMap (keyActOf oc k)) := by
  induction rules generalizing m with
  | nil => rfl
  | cons r rs ih =>
    have hstep : evalSteps oc m (r :: rs) = evalSteps oc (applyOutcome (oc r) m) rs := by
      simp [evalSteps]
    rw [hstep, ih, List.filterMap_cons]
    cases hoc : oc r with
    | none => simp [keyActOf, hoc, applyOutcome]
    | some pair =>
      obtain ⟨a, ks⟩ := pair
      simp only [keyActOf, hoc, applyOutcome]
      by_cases hk : k ∈ ks
      · rw [if_pos hk, lookupv_foldWrites, if_pos hk]
        simp [applyActs]
      · rw [if_neg hk, lookupv_foldWrites, if_neg hk]

/-- SHOW is absorbing for any sequence of writes. -/
theorem applyActs_show (acts : List WAct) : applyActs (some "SHOW") acts = some "SHOW" := by
  induction acts with
  | nil => rfl
  | cons a acts ih =>
    simp only [applyActs, List.foldl_cons] at *
    rw [writeVal_show, ih]

/-- dedupeGo keeps a subsequence of its input. -/
theorem dedupeGo_sublist (seen : List String) (l : List JsVal) :
    (dedupeGo seen l).Sublist l := by
  induction l generalizing seen with
  | nil => simp [dedupeGo]
  | cons r rs ih =>
    simp only [dedupeGo]
    split
    · exact (ih seen).cons r
    · split
      · exact (ih seen).cons r
      · exact (ih _).cons₂ r

/-- dedupeGo only keeps truthy records. -/
theorem dedupeGo_truthy {seen : List String} {l : List JsVal} {r : JsVal}
    (h : r ∈ dedupeGo seen l) : jsTruthy r = true := by
  induction l generalizing seen with
  | nil => simp [dedupeGo] at h
  | cons r0 rs ih =>
    simp only [dedupeGo] at h
    split at h
    · exact ih h
    · split at h
      · exact ih h
      · rcases List.mem_cons.mp h with h1 | h1
        · subst h1
          rename_i ht _
          simpa using ht
        · exact ih h1

/-- dedupeGo never keeps a key already seen. -/
theorem dedupeGo_key_notin {seen : List String} {l : List JsVal} {r : JsVal}
    (h : r ∈ dedupeGo seen l) : dedupeKey r ∉ seen := by
  induction l generalizing seen with
  | nil => simp [dedupeGo] at h
  | cons r0 rs ih =>
    simp only [dedupeGo] at h
    split at h
    · exact ih h
    · split at h
      · exact ih h
      · rcases List.mem_cons.mp h with h1 | h1
        · subst h1
          rename_i hnotin
          simpa using hnotin
        · intro hmem
          exact (ih h1) (List.mem_cons_of_mem _ hmem)

/-- The keys of dedupeGo's output are pairwise distinct. -/
theorem dedupeGo_keys_nodup (seen : List String) (l : List JsVal) :
    ((dedupeGo seen l).map dedupeKey).Nodup := by
  induction l generalizing seen with
  | nil => simp [dedupeGo]
  | cons r0 rs ih =>
    simp only [dedupeGo]
    split
    · exact ih seen
    · split
      · exact ih seen
      · simp only [List.map_cons, List.nodup_cons]
        refine ⟨?_, ih _⟩
        intro hmem
        obtain ⟨r1, hr1, hk⟩ := List.mem_map.mp hmem
        have := dedupeGo_key_notin hr1
        exact this (hk ▸ List.mem_cons_self _ _)

/-- dedupeGo is the identity on truthy lists with fresh, pairwise-distinct
keys. -/
theorem dedupeGo_fixed (seen : List String) (l : List JsVal)
    (ht : ∀ r ∈ l, jsTruthy r = true) (hn : (l.map dedupeKey).Nodup)
    (hs : ∀ r ∈ l, dedupeKey r ∉ seen) : dedupeGo seen l = l := by
  induction l generalizing seen with
  | nil => rfl
  | cons r rs ih =>
    simp only [dedupeGo]
    rw [if_neg (by simp [ht r (List.mem_cons_self r rs)]),
        if_neg (hs r (List.mem_cons_self r rs))]
    congr 1
    rw [List.map_cons, List.nodup_cons] at hn
    apply ih
    · intro x hx; exact ht x (List.mem_cons_of_mem r hx)
    · exact hn.2
    · intro x hx
      simp only [List.mem_cons]
      push_neg
      refine ⟨?_, hs x (List.mem_cons_of_mem r hx)⟩
      intro hk
      exact hn.1 (hk ▸ List.mem_map_of_mem dedupeKey hx)

/-- C8 (confirmed): dedupeRules is idempotent, and every retained record is an
input record kept verbatim (volatile fields included): the output is a
subsequence of the input. Duplicate detection goes through `dedupeKey`, the
JSON string of a shallow clone with `version`/`ts` removed. -/
theorem c8_dedupe_idempotent (X : List JsVal) :
    dedupeRules (dedupeRules X) = dedupeRules X ∧ (dedupeRules X).Sublist X := by
  refine ⟨?_, dedupeGo_sublist [] X⟩
  apply dedupeGo_fixed
  · intro r hr; exact dedupeGo_truthy hr
  · exact dedupeGo_keys_nodup [] X
  · intro r _; exact List.not_mem_nil _

/-- Unfolding of the heading evaluator on a non-empty rule list. -/
theorem evalHeading_cons (schema : FormSchema) (vals : Bag) (hr : Option HeadingResolverM)
    (r : JsVal) (rs : List JsVal) :
    evaluateRulesToVisibility schema vals (r :: rs) hr =
      (match sanitizeValues schema vals with
       | .error e => .error e
       | .ok cv => .ok (evalSteps (headingOutcome schema cv hr) [] (r :: rs))) := rfl

/-- Unfolding of the field evaluator on a non-empty rule list. -/
theorem evalField_cons (schema : FormSchema) (vals : Bag) (r : JsVal) (rs : List JsVal) :
    evaluateFieldRulesToVisibility schema vals (r :: rs) =
      (match sanitizeValues schema vals with
       | .error e => .error e
       | .ok cv => .ok (evalSteps (fieldOutcome schema cv) [] (r :: rs))) := rfl

/-- A SHOW entry survives any further rules of the same pass. -/
theorem evalSteps_show_mono (oc : JsVal → Option (WAct × List String)) (l : List JsVal)
    (m : VisMap) (k : String) (h : lookupv m k = some "SHOW") :
    lookupv (evalSteps oc m l) k = some "SHOW" := by
  rw [lookupv_evalSteps, h, applyActs_show]

/-- Appending further rules continues the fold from the earlier map. -/
theorem evalSteps_append (oc : JsVal → Option (WAct × List String)) (l1 l2 : List JsVal)
    (m : VisMap) :
    evalSteps oc m (l1 ++ l2) = evalSteps oc (evalSteps oc m l1) l2 := by
  simp [evalSteps, List.foldl_append]

/-- C3 (confirmed): within one evaluation pass (heading or field), once a
target's entry is SHOW after some prefix of the rules, appending any further
rules of that pass leaves it SHOW — entries never regress from SHOW to
HIDE/DISABLE. -/
theorem c3_show_never_regresses (schema : FormSchema) (vals : Bag)
    (hr : Option HeadingResolverM) (l1 l2 : List JsVal) (k : String) :
    (∀ m, evaluateRulesToVisibility schema vals l1 hr = .ok m →
      lookupv m k = some "SHOW" →
      ∃ m2, evaluateRulesToVisibility schema vals (l1 ++ l2) hr = .ok m2 ∧
        lookupv m2 k = some "SHOW")
  ∧ (∀ m, evaluateFieldRulesToVisibility schema vals l1 = .ok m →
      lookupv m k = some "SHOW" →
      ∃ m2, evaluateFieldRulesToVisibility schema vals (l1 ++ l2) = .ok m2 ∧
        lookupv m2 k = some "SHOW") := by
  constructor
  · intro m hok hshow
    cases l1 with
    | nil =>
      have hm : Except.ok ([] : VisMap) = Except.ok m := hok
      cases hm
      exact absurd hshow (by simp [lookupv, assocGet])
    | cons r rs =>
      rw [evalHeading_cons] at hok
      cases hs : sanitizeValues schema vals with
      | error e => rw [hs] at hok; exact Except.noConfusion hok
      | ok cv =>
        simp only [hs] at hok
        have hm : m = evalSteps (headingOutcome schema cv hr) [] (r :: rs) := by
          cases hok; rfl
        refine ⟨evalSteps (headingOutcome schema cv hr) [] ((r :: rs) ++ l2), ?_, ?_⟩
        · rw [show ((r :: rs) ++ l2) = r :: (rs ++ l2) from rfl, evalHeading_cons, hs]
        · rw [evalSteps_append, ← hm]
          exact evalSteps_show_mono _ _ _ _ hshow
  · intro m hok hshow
    cases l1 with
    | nil =>
      have hm : Except.ok ([] : VisMap) = Except.ok m := hok
      cases hm
      exact absurd hshow (by simp [lookupv, assocGet])
    | cons r rs =>
      rw [evalField_cons] at hok
      cases hs : sanitizeValues schema vals with
      | error e => rw [hs] at hok; exact Except.noConfusion hok
      | ok cv =>
        simp only [hs] at hok
        have hm : m = evalSteps (fieldOutcome schema cv) [] (r :: rs) := by
          cases hok; rfl
        refine ⟨evalSteps (fieldOutcome schema cv) [] ((r :: rs) ++ l2), ?_, ?_⟩
        · rw [show ((r :: rs) ++ l2) = r :: (rs ++ l2) from rfl, evalField_cons, hs]
        · rw [evalSteps_append, ← hm]
          exact evalSteps_show_mono _ _ _ _ hshow

/-- Concrete instantiation of c3_show_never_regresses: a SHOW written by a
matching rule stays SHOW after a later matching HIDE rule on the same target,
in both passes. -/
theorem c3_show_never_regresses_witness :
    (∃ m2, evaluateRulesToVisibility exSchemaF exValsX ([exShowRuleH] ++ [exHideRuleH]) none =
        .ok m2 ∧ lookupv m2 "5" = some "SHOW")
  ∧ (∃ m2, evaluateFieldRulesToVisibility exSchemaF exValsX ([exShowRule] ++ [exHideRule]) =
        .ok m2 ∧ lookupv m2 "g" = some "SHOW") :=
  ⟨(c3_show_never_regresses exSchemaF exValsX none [exShowRuleH] [exHideRuleH] "5").1
      [("5", "SHOW")] rfl rfl,
   (c3_show_never_regresses exSchemaF exValsX none [exShowRule] [exHideRule] "g").2
      [("g", "SHOW")] rfl rfl⟩

/-- Per-key result when every act is SHOW or HIDE-with-effect-"HIDE" (the
heading pass): determined by membership alone, hence order-independent. -/
theorem applyActs_hh (acts : List WAct)
    (h : ∀ a ∈ acts, a = WAct.showAct ∨ a = WAct.hideAct "HIDE") (o : Option String) :
    applyActs o acts =
      if o = some "SHOW" ∨ WAct.showAct ∈ acts then some "SHOW"
      else if WAct.hideAct "HIDE" ∈ acts then some "HIDE" else o := by
  induction acts generalizing o with
  | nil =>
    by_cases ho : o = some "SHOW" <;> simp [applyActs, ho]
  | cons a acts ih =>
    have hstep : applyActs o (a :: acts) = applyActs (writeVal a o) acts := by
      simp [applyActs]
    have htail := fun x hx => h x (List.mem_cons_of_mem a hx)
    rcases h a (List.mem_cons_self a acts) with ha | ha
    · subst ha
      rw [hstep, show writeVal WAct.showAct o = some "SHOW" from rfl, applyActs_show,
          if_pos (Or.inr (List.mem_cons_self _ _))]
    · subst ha
      rw [hstep]
      by_cases ho : o = some "SHOW"
      · rw [ho, show writeVal (WAct.hideAct "HIDE") (some "SHOW") = some "SHOW" from rfl,
            applyActs_show, if_pos (Or.inl rfl)]
      · have hw : writeVal (WAct.hideAct "HIDE") o = some "HIDE" := by
          simp [writeVal, ho]
        rw [hw, ih htail (some "HIDE")]
        have hne : ¬ ((some "HIDE" : Option String) = some "SHOW") := by decide
        simp only [hne, false_or, ho, List.mem_cons]
        have hsne : ¬ (WAct.showAct = WAct.hideAct "HIDE") := by decide
        simp only [hsne, false_or]
        by_cases hsh : WAct.showAct ∈ acts
        · simp [hsh]
        · simp only [hsh, if_false]
          by_cases hh : WAct.hideAct "HIDE" ∈ acts <;> simp [hh]

/-- A non-SHOW effect projects to 1. -/
theorem projStatus_hidden {e : String} (he : ¬ e = "SHOW") : projStatus (some e) = 1 := by
  simp [projStatus, he]

/-- Per-key projected result when no effect string is "SHOW" (the field
pass): SHOW-ness, presence, and absence are determined by membership alone. -/
theorem applyActs_projChar (acts : List WAct)
    (h : ∀ e, WAct.hideAct e ∈ acts → ¬ e = "SHOW") (o : Option String) :
    projStatus (applyActs o acts) =
      if o = some "SHOW" ∨ WAct.showAct ∈ acts then 0
      else if acts.any isHideAct then 1 else projStatus o := by
  induction acts generalizing o with
  | nil =>
    by_cases ho : o = some "SHOW" <;> simp [applyActs, ho, projStatus]
  | cons a acts ih =>
    have hstep : applyActs o (a :: acts) = applyActs (writeVal a o) acts := by
      simp [applyActs]
    have htail := fun e he => h e (List.mem_cons_of_mem a he)
    cases a with
    | showAct =>
      rw [hstep, show writeVal WAct.showAct o = some "SHOW" from rfl, applyActs_show,
          if_pos (Or.inr (List.mem_cons_self _ _))]
      simp [projStatus]
    | hideAct e =>
      have he : ¬ e = "SHOW" := h e (List.mem_cons_self _ _)
      rw [hstep]
      by_cases ho : o = some "SHOW"
      · rw [ho, show writeVal (WAct.hideAct e) (some "SHOW") = some "SHOW" from by
            simp [writeVal], applyActs_show, if_pos (Or.inl rfl)]
        simp [projStatus]
      · have hw : writeVal (WAct.hideAct e) o = some e := by
          simp [writeVal, ho]
        rw [hw, ih htail (some e)]
        have hne : ¬ ((some e : Option String) = some "SHOW") := by simp [he]
        simp only [hne, false_or, ho, List.mem_cons]
        have hsne : ¬ (WAct.showAct = WAct.hideAct e) := by
          intro hx; exact WAct.noConfusion hx
        simp only [hsne, false_or]
        by_cases hsh : WAct.showAct ∈ acts
        · simp [hsh]
        · simp only [hsh, if_false]
          have hany : (WAct.hideAct e :: acts).any isHideAct = true := by
            simp [isHideAct]
          rw [if_pos hany]
          by_cases hh : acts.any isHideAct = true
          · rw [if_pos hh]
          · rw [if_neg hh, projStatus_hidden he]

/-- any is invariant under permutation. -/
theorem perm_any {l l2 : List WAct} (hp : l.Perm l2) (p : WAct → Bool) :
    l.any p = l2.any p := by
  cases h1 : l.any p <;> cases h2 : l2.any p
  · rfl
  · exfalso
    rw [List.any_eq_true] at h2
    obtain ⟨x, hx, hpx⟩ := h2
    have hcon : l.any p = true := List.any_eq_true.mpr ⟨x, hp.mem_iff.mpr hx, hpx⟩
    rw [h1] at hcon
    exact Bool.noConfusion hcon
  · exfalso
    rw [List.any_eq_true] at h1
    obtain ⟨x, hx, hpx⟩ := h1
    have hcon : l2.any p = true := List.any_eq_true.mpr ⟨x, hp.mem_iff.mp hx, hpx⟩
    rw [h2] at hcon
    exact Bool.noConfusion hcon
  · rfl

/-- Heading-pass per-key folds agree on permuted act sequences. -/
theorem applyActs_perm_hh {acts acts2 : List WAct} (hp : acts.Perm acts2)
    (h : ∀ a ∈ acts, a = WAct.showAct ∨ a = WAct.hideAct "HIDE") (o : Option String) :
    applyActs o acts = applyActs o acts2 := by
  rw [applyActs_hh acts h o, applyActs_hh acts2 (fun a ha => h a (hp.mem_iff.mpr ha)) o,
      if_congr (or_congr Iff.rfl hp.mem_iff) rfl (if_congr hp.mem_iff rfl rfl)]

/-- Field-pass per-key folds agree up to projStatus on permuted sequences. -/
theorem applyActs_perm_proj {acts acts2 : List WAct} (hp : acts.Perm acts2)
    (h : ∀ e, WAct.hideAct e ∈ acts → ¬ e = "SHOW") (o : Option String) :
    projStatus (applyActs o acts) = projStatus (applyActs o acts2) := by
  rw [applyActs_projChar acts h o,
      applyActs_projChar acts2 (fun e he => h e (hp.mem_iff.mpr he)) o,
      if_congr (or_congr Iff.rfl hp.mem_iff) rfl
        (if_congr (by rw [perm_any hp isHideAct]) rfl rfl)]

/-- The heading pass only ever writes SHOW or HIDE-with-effect-"HIDE". -/
theorem headingOutcome_act {schema : FormSchema} {cv : Bag} {hr : Option HeadingResolverM}
    {r : JsVal} {a : WAct} {ks : List String}
    (h : headingOutcome schema cv hr r = some (a, ks)) :
    a = WAct.showAct ∨ a = WAct.hideAct "HIDE" := by
  simp only [headingOutcome] at h
  repeat' split at h
  all_goals first
    | exact Option.noConfusion h
    | (simp only [Option.some.injEq, Prod.mk.injEq] at h
       rcases h with ⟨ha, -⟩
       first
         | exact Or.inl ha.symm
         | exact Or.inr ha.symm)

/-- The field pass only ever writes SHOW, HIDE-"DISABLE" or HIDE-"HIDE". -/
theorem fieldOutcome_act {schema : FormSchema} {cv : Bag} {r : JsVal} {a : WAct}
    {ks : List String} (h : fieldOutcome schema cv r = some (a, ks)) :
    a = WAct.showAct ∨ a = WAct.hideAct "DISABLE" ∨ a = WAct.hideAct "HIDE" := by
  simp only [fieldOutcome] at h
  repeat' split at h
  all_goals first
    | exact Option.noConfusion h
    | (simp only [Option.some.injEq, Prod.mk.injEq] at h
       rcases h with ⟨ha, -⟩
       first
         | exact Or.inl ha.symm
         | exact Or.inr (Or.inl ha.symm)
         | exact Or.inr (Or.inr ha.symm))

/-- Acts collected for one key in the heading pass are SHOW or HIDE-"HIDE". -/
theorem mem_keyActs_heading {schema : FormSchema} {cv : Bag} {hr : Option HeadingResolverM}
    {k : String} {rules : List JsVal} {a : WAct}
    (h : a ∈ rules.filterMap (keyActOf (headingOutcome schema cv hr) k)) :
    a = WAct.showAct ∨ a = WAct.hideAct "HIDE" := by
  obtain ⟨r, -, hk⟩ := List.mem_filterMap.mp h
  cases hoc : headingOutcome schema cv hr r with
  | none =>
    simp only [keyActOf, hoc] at hk
    exact Option.noConfusion hk
  | some pair =>
    obtain ⟨a0, ks⟩ := pair
    simp only [keyActOf, hoc] at hk
    by_cases hkk : k ∈ ks
    · rw [if_pos hkk] at hk
      cases hk
      exact headingOutcome_act hoc
    · rw [if_neg hkk] at hk
      exact Option.noConfusion hk

/-- Acts collected for one key in the field pass never carry effect "SHOW". -/
theorem mem_keyActs_field {schema : FormSchema} {cv : Bag} {k : String}
    {rules : List JsVal} {e : String}
    (h : WAct.hideAct e ∈ rules.filterMap (keyActOf (fieldOutcome schema cv) k)) :
    ¬ e = "SHOW" := by
  obtain ⟨r, -, hk⟩ := List.mem_filterMap.mp h
  cases hoc : fieldOutcome schema cv r with
  | none =>
    simp only [keyActOf, hoc] at hk
    exact Option.noConfusion hk
  | some pair =>
    obtain ⟨a0, ks⟩ := pair
    simp only [keyActOf, hoc] at hk
    by_cases hkk : k ∈ ks
    · rw [if_pos hkk] at hk
      cases hk
      rcases fieldOutcome_act hoc with ha | ha | ha
      · exact absurd ha (by intro hx; exact WAct.noConfusion hx)
      · cases ha; decide
      · cases ha; decide
    · rw [if_neg hkk] at hk
      exact Option.noConfusion hk

/-- C1 (amended): under any permutation of the rule list, the heading pass
produces an extensionally identical VisibilityMap; the field pass produces a
map with the same key set that agrees on which entries are SHOW, but a
non-SHOW entry holds the hideMode effect of the *last* matching HIDE rule, so
HIDE vs DISABLE can differ between permutations (see c1_counterexample).
`projStatus` collapses an entry to SHOW / hidden-or-disabled / absent; both
evaluators also agree on whether they throw. -/
theorem c1_amended_order_independence (schema : FormSchema) (vals : Bag)
    (hr : Option HeadingResolverM) (l l2 : List JsVal) (hp : l.Perm l2) :
    (exceptOkB (evaluateRulesToVisibility schema vals l hr) =
       exceptOkB (evaluateRulesToVisibility schema vals l2 hr))
  ∧ (∀ m m2, evaluateRulesToVisibility schema vals l hr = .ok m →
      evaluateRulesToVisibility schema vals l2 hr = .ok m2 →
      ∀ k, lookupv m k = lookupv m2 k)
  ∧ (exceptOkB (evaluateFieldRulesToVisibility schema vals l) =
       exceptOkB (evaluateFieldRulesToVisibility schema vals l2))
  ∧ (∀ m m2, evaluateFieldRulesToVisibility schema vals l = .ok m →
      evaluateFieldRulesToVisibility schema vals l2 = .ok m2 →
      ∀ k, projStatus (lookupv m k) = projStatus (lookupv m2 k)) := by
  cases l with
  | nil =>
    have h2 : l2 = [] := hp.symm.eq_nil
    subst h2
    refine ⟨rfl, ?_, rfl, ?_⟩
    · intro m m2 h1 h2
      have hm1 : Except.ok ([] : VisMap) = Except.ok m := h1
      have hm2 : Except.ok ([] : VisMap) = Except.ok m2 := h2
      cases hm1; cases hm2; intro k; rfl
    · intro m m2 h1 h2
      have hm1 : Except.ok ([] : VisMap) = Except.ok m := h1
      have hm2 : Except.ok ([] : VisMap) = Except.ok m2 := h2
      cases hm1; cases hm2; intro k; rfl
  | cons r rs =>
    obtain ⟨r2, rs2, hl2⟩ : ∃ a as, l2 = a :: as := by
      cases l2 with
      | nil => exact absurd hp.eq_nil (by simp)
      | cons a as => exact ⟨a, as, rfl⟩
    subst hl2
    cases hs : sanitizeValues schema vals with
    | error e =>
      refine ⟨?_, ?_, ?_, ?_⟩
      · rw [evalHeading_cons, evalHeading_cons, hs]
      · intro m m2 h1 h2
        rw [evalHeading_cons, hs] at h1
        exact Except.noConfusion h1
      · rw [evalField_cons, evalField_cons, hs]
      · intro m m2 h1 h2
        rw [evalField_cons, hs] at h1
        exact Except.noConfusion h1
      
    | ok cv =>
      refine ⟨?_, ?_, ?_, ?_⟩
      · rw [evalHeading_cons, evalHeading_cons, hs]
        rfl
      · intro m m2 h1 h2
        rw [evalHeading_cons, hs] at h1
        rw [evalHeading_cons, hs] at h2
        cases h1; cases h2
        intro k
        rw [lookupv_evalSteps, lookupv_evalSteps]
        exact applyActs_perm_hh (hp.filterMap _)
          (fun a ha => mem_keyActs_heading ha) _
      · rw [evalField_cons, evalField_cons, hs]
        rfl
      · intro m m2 h1 h2
        rw [evalField_cons, hs] at h1
        rw [evalField_cons, hs] at h2
        cases h1; cases h2
        intro k
        rw [lookupv_evalSteps, lookupv_evalSteps]
        exact applyActs_perm_proj (hp.filterMap _)
          (fun e he => mem_keyActs_field he) _

/-- Concrete instantiation of c1_amended_order_independence at the
c1_counterexample inputs: the two orders give maps that differ in HIDE vs
DISABLE but agree under projStatus at every key. -/
theorem c1_amended_order_independence_witness :
    projStatus (lookupv [("g", "DISABLE")] "g") = projStatus (lookupv [("g", "HIDE")] "g") :=
  (c1_amended_order_independence exSchemaF exValsX none [exHideRule, exDisableRule]
    [exDisableRule, exHideRule] (List.Perm.swap exDisableRule exHideRule [])).2.2.2
    [("g", "DISABLE")] [("g", "HIDE")] rfl rfl "g"

/-- C10 (confirmed): the equals operator compares String(actual) with
String(expected): ['no'] matches the scalar 'no' (for every field type), and
['a','b'] matches a scalar exactly when it stringifies to "a,b". -/
theorem c10_equals_string_coercion :
    (∀ ft : String, ruleMatchesValue (.str "equals") (.arr [.str "no"]) (.str "no") ft = true)
  ∧ (∀ (actual : JsVal) (ft : String),
      ruleMatchesValue (.str "equals") (.arr [.str "a", .str "b"]) actual ft =
        (jsToString actual == "a,b"))
  ∧ (∀ ft : String,
      ruleMatchesValue (.str "equals") (.arr [.str "a", .str "b"]) (.str "a,b") ft = true)
  ∧ (∀ ft : String,
      ruleMatchesValue (.str "equals") (.arr [.str "a", .str "b"]) (.str "a") ft = false) :=
  ⟨fun _ => rfl, fun _ _ => rfl, fun _ => rfl, fun _ => rfl⟩


/-- sanitizeOne throws only in the date branch on an Invalid Date object. -/
theorem sanitizeOne_ok (vals : Bag) (out : Bag) (f : FieldSchema)
    (h : ¬ (jsLower f.type = "date" ∧ bagGet vals f.id = JsVal.date none)) :
    ∃ o2, sanitizeOne vals out f = Except.ok o2 := by
  cases hres : sanitizeOne vals out f with
  | ok o => exact ⟨o, rfl⟩
  | error e =>
    exfalso
    simp only [sanitizeOne] at hres
    repeat' split at hres
    all_goals first
      | exact Except.noConfusion hres
      | (apply h; constructor <;> assumption)

/-- The per-field pass succeeds when no date field holds an Invalid Date. -/
theorem sanitizeFieldsGo_ok (vals : Bag) (fs : List FieldSchema) (out : Bag)
    (h : ∀ f ∈ fs, ¬ (jsLower f.type = "date" ∧ bagGet vals f.id = JsVal.date none)) :
    ∃ o2, sanitizeFieldsGo vals fs out = Except.ok o2 := by
  induction fs generalizing out with
  | nil => exact ⟨out, rfl⟩
  | cons f fs ih =>
    obtain ⟨o2, ho2⟩ := sanitizeOne_ok vals out f (h f (List.mem_cons_self f fs))
    simp only [sanitizeFieldsGo, ho2]
    exact ih o2 (fun x hx => h x (List.mem_cons_of_mem f hx))

/-- sanitizeValues succeeds under the sanitizeSafe precondition. -/
theorem sanitizeValues_ok (schema : FormSchema) (vals : Bag)
    (h : sanitizeSafe schema vals = true) :
    ∃ out, sanitizeValues schema vals = Except.ok out := by
  have h2 : ∀ f ∈ schema.fields,
      ¬ (jsLower f.type = "date" ∧ bagGet vals f.id = JsVal.date none) := by
    intro f hf hcon
    have hall := (List.all_eq_true.mp h) f hf
    rw [hcon.1, hcon.2] at hall
    simp at hall
  obtain ⟨o2, ho2⟩ := sanitizeFieldsGo_ok vals schema.fields [] h2
  unfold sanitizeValues
  rw [ho2]
  exact ⟨_, rfl⟩

/-- C2 (amended): no operation of the core throws provided no date-typed
field's value is an Invalid Date object. In the embedding, dedupeRules,
normalizeRuleCollection and both normalizers are total functions (they cannot
throw on any modelled input); the only fallible operations are sanitizeValues
(whose date branch calls toISOString on Date objects, throwing on an Invalid
Date — see c2_counterexample) and the two evaluators that run it. Under the
`sanitizeSafe` precondition all three succeed on every input. -/
theorem c2_amended_no_throw (schema : FormSchema) (vals : Bag)
    (h : sanitizeSafe schema vals = true) :
    (∃ out, sanitizeValues schema vals = .ok out)
  ∧ (∀ (rules : List JsVal) (hr : Option HeadingResolverM),
      ∃ m, evaluateRulesToVisibility schema vals rules hr = .ok m)
  ∧ (∀ rules : List JsVal,
      ∃ m, evaluateFieldRulesToVisibility schema vals rules = .ok m) := by
  obtain ⟨out, hout⟩ := sanitizeValues_ok schema vals h
  refine ⟨⟨out, hout⟩, ?_, ?_⟩
  · intro rules hr
    cases rules with
    | nil => exact ⟨[], rfl⟩
    | cons r rs =>
      rw [evalHeading_cons, hout]
      exact ⟨_, rfl⟩
  · intro rules
    cases rules with
    | nil => exact ⟨[], rfl⟩
    | cons r rs =>
      rw [evalField_cons, hout]
      exact ⟨_, rfl⟩

/-- Concrete instantiation of c2_amended_no_throw: with a well-formed date
string under the date field, sanitizeValues and both evaluators succeed. -/
theorem c2_amended_no_throw_witness :
    (∃ out, sanitizeValues exSchemaD [("d", .str "2024-05-01")] = .ok out)
  ∧ (∃ m, evaluateFieldRulesToVisibility exSchemaD [("d", .str "2024-05-01")]
        [exHideRule] = .ok m) :=
  ⟨(c2_amended_no_throw exSchemaD [("d", .str "2024-05-01")] rfl).1,
   (c2_amended_no_throw exSchemaD [("d", .str "2024-05-01")] rfl).2.2 [exHideRule]⟩


/-- spreadToObj always yields an object. -/
theorem spreadToObj_isObj (v : JsVal) : ∃ ps, spreadToObj v = JsVal.obj ps := by
  cases v <;> exact ⟨_, rfl⟩

/-- Looking up a key just written. -/
theorem propLookup_propSet (ps : List (String × JsVal)) (k : String) (v : JsVal) :
    propLookup (propSet ps k v) k = some v := by
  induction ps with
  | nil => simp [propSet, propLookup]
  | cons kv rest ih =>
    obtain ⟨k0, v0⟩ := kv
    by_cases h : k0 = k
    · simp [propSet, propLookup, h]
    · simp [propSet, propLookup, h, ih]

/-- Reading back a property just set on an object. -/
theorem getProp_setProp_obj (ps : List (String × JsVal)) (k : String) (v : JsVal) :
    getProp (setProp (JsVal.obj ps) k v) k = v := by
  simp [setProp, getProp, propLookup_propSet]

/-- The multichoice/select values coercion keeps rules as objects. -/
theorem coerce_isObj (rule : JsVal) (wf : Option FieldSchema)
    (h : ∃ ps, rule = JsVal.obj ps) :
    ∃ qs, __coerceRuleForMultichoiceOption rule wf = JsVal.obj qs := by
  obtain ⟨ps, rfl⟩ := h
  cases wf with
  | none => exact ⟨ps, rfl⟩
  | some f =>
    simp only [__coerceRuleForMultichoiceOption]
    split
    · exact ⟨ps, rfl⟩
    · cases hv : getProp (JsVal.obj ps) "values" <;> simp only [hv] <;> exact ⟨_, rfl⟩

/-- Objects are closed under setProp. -/
theorem setProp_isObj (o : JsVal) (k : String) (v : JsVal)
    (h : ∃ p, o = JsVal.obj p) : ∃ q, setProp o k v = JsVal.obj q := by
  obtain ⟨p, rfl⟩ := h
  exact ⟨_, rfl⟩

/-- The option-trigger rewrite body keeps rules as objects. -/
theorem whenOptionRewrite_isObj (schema : FormSchema) (ps : List (String × JsVal))
    (refS : String) (parsed : ParsedRef) :
    ∃ qs, whenOptionRewrite schema (JsVal.obj ps) refS parsed = JsVal.obj qs := by
  simp only [whenOptionRewrite]
  repeat' split
  all_goals exact ⟨_, rfl⟩

/-- The option-trigger rewrite keeps rules as objects. -/
theorem normWhen_isObj (schema : FormSchema) (ps : List (String × JsVal)) :
    ∃ qs, __normalizeWhenOptionRefAgainstSchema schema (JsVal.obj ps) = JsVal.obj qs := by
  simp only [__normalizeWhenOptionRefAgainstSchema]
  split
  · exact ⟨ps, rfl⟩
  · cases hv : whenOptionTriggerRef (JsVal.obj ps) <;> simp only [hv]
    all_goals try exact ⟨ps, rfl⟩
    split
    · exact ⟨ps, rfl⟩
    · split
      · split
        · exact ⟨ps, rfl⟩
        · split
          · exact ⟨ps, rfl⟩
          · exact whenOptionRewrite_isObj schema ps _ _
      · exact ⟨ps, rfl⟩

/-- The trigger fallback keeps rules as objects. -/
theorem applyTriggerFallback_isObj (schema : FormSchema) (rf : FieldSchema)
    (ps : List (String × JsVal)) :
    ∃ qs, applyTriggerFallback schema rf (JsVal.obj ps) = JsVal.obj qs := by
  simp only [applyTriggerFallback]
  repeat' split
  all_goals exact ⟨_, rfl⟩

/-- Condition filtering keeps rules as objects. -/
theorem filterRuleConditions_isObj (schema : FormSchema) (ps : List (String × JsVal)) :
    ∃ qs, filterRuleConditions schema (JsVal.obj ps) = JsVal.obj qs := by
  cases hv : getProp (JsVal.obj ps) "conditions" <;>
    simp only [filterRuleConditions, hv] <;> exact ⟨_, rfl⟩

/-- The shared normalization steps always yield an object rule. -/
theorem normalizeRuleCommon_isObj {schema : FormSchema} {raw : JsVal} {f : FieldSchema}
    {r0 : JsVal} (h : normalizeRuleCommon schema raw = some (f, r0)) :
    ∃ ps, r0 = JsVal.obj ps := by
  unfold normalizeRuleCommon at h
  split at h
  · exact Option.noConfusion h
  · split at h
    · exact Option.noConfusion h
    · rename_i resolvedField hres
      simp only [Option.some.injEq, Prod.mk.injEq] at h
      obtain ⟨-, hr0⟩ := h
      obtain ⟨p1, h1⟩ := spreadToObj_isObj raw
      obtain ⟨p2, h2⟩ := coerce_isObj (spreadToObj raw) (some resolvedField) ⟨p1, h1⟩
      rw [h2] at hr0
      obtain ⟨p3, h3⟩ := normWhen_isObj schema p2
      rw [h3] at hr0
      obtain ⟨p4, h4⟩ := applyTriggerFallback_isObj schema resolvedField p3
      rw [h4] at hr0
      obtain ⟨p5, h5⟩ := filterRuleConditions_isObj schema p4
      rw [h5] at hr0
      exact ⟨p5, hr0.symm⟩

/-- C4 (amended): every rule emitted by normalizeFieldRulesForSchema has a
non-empty targets array (a rule whose targets all fail to resolve gets the
single default target of its own trigger field). The same is NOT true of
normalizeHeadingsRulesForSchema, which has no fallback and can emit an empty
targets array (see c4_counterexample). -/
theorem c4_amended_field_targets_nonempty (schema : FormSchema) (rulesIn : JsVal)
    (r : JsVal) (hm : r ∈ normalizeFieldRulesForSchema schema rulesIn) :
    ∃ ts, getProp r "targets" = JsVal.arr ts ∧ ts ≠ [] := by
  unfold normalizeFieldRulesForSchema at hm
  obtain ⟨raw, -, hr⟩ := List.mem_filterMap.mp hm
  unfold normFieldRule at hr
  cases hc : normalizeRuleCommon schema raw with
  | none => rw [hc] at hr; exact Option.noConfusion hr
  | some pair =>
    obtain ⟨rf, r0⟩ := pair
    rw [hc] at hr
    obtain ⟨ps, hps⟩ := normalizeRuleCommon_isObj hc
    simp only [Option.some.injEq] at hr
    rw [← hr, hps]
    split
    · refine ⟨_, getProp_setProp_obj ps "targets" _, by simp⟩
    · rename_i hne
      refine ⟨_, getProp_setProp_obj ps "targets" _, ?_⟩
      intro hnil
      rw [hnil] at hne
      simp at hne

/-- Concrete instantiation of c4_amended_field_targets_nonempty at a rule
with an empty targets array: the field normalizer emits the trigger-field
fallback target. -/
theorem c4_amended_field_targets_nonempty_witness :
    ∃ ts, getProp (JsVal.obj
        [("fieldId", .str "f"),
         ("targets", .arr [.obj [("id", .str "f"), ("fieldId", .str "f"),
                                 ("label", .str "F")]])]) "targets" = JsVal.arr ts ∧
      ts ≠ [] := by
  apply c4_amended_field_targets_nonempty exSchemaF (.arr [exEmptyTargetsRule])
  exact List.mem_singleton_self _


/-- C5 (amended): an object target carrying a usable idx (non-nullish and
numerically finite) is never discarded by normalizeTarget: every index-match
branch returns a descriptor, and the final fallback synthesizes one from the
idx. A label alone does not trigger synthesis (see c5_counterexample), so for
object targets null is returned only when the target matches no index entry
and carries no usable idx. -/
theorem c5_amended_object_idx_synthesis (baseline : JsVal) (fs : List (String × JsVal))
    (hnn : jsNullish (getProp (JsVal.obj fs) "idx") = false)
    (hfin : (jsToNumber (getProp (JsVal.obj fs) "idx")).isSome = true) :
    (normalizeTarget (buildHeadingTargetIndex baseline) (JsVal.obj fs)).isSome = true := by
  show (normalizeTargetObj (buildHeadingTargetIndex baseline) (JsVal.obj fs)).isSome = true
  simp only [normalizeTargetObj]
  repeat' split
  all_goals first
    | rfl
    | simp_all

/-- Concrete instantiation of c5_amended_object_idx_synthesis: with an empty
baseline, the unmatched object target with idx "7" is synthesized rather than
discarded. -/
theorem c5_amended_object_idx_synthesis_witness :
    (normalizeTarget (buildHeadingTargetIndex JsVal.null)
      (JsVal.obj [("idx", .str "7"), ("label", .str "Foo")])).isSome = true :=
  c5_amended_object_idx_synthesis JsVal.null [("idx", .str "7"), ("label", .str "Foo")]
    rfl rfl

/-- The one-field step of the schema index only appends the field's id to
byId (labels and options go to the other two maps). -/
theorem schemaIndexStep_byId (idx : SchemaIndex) (f : FieldSchema) :
    (schemaIndexStep idx f).byId = assocSet idx.byId f.id f := by
  have hopt : ∀ (labs : List String) (j : SchemaIndex),
      (labs.foldl (fun j lab =>
        { j with optionToField := assocSet j.optionToField (jsLower (jsTrim lab)) f }) j).byId
        = j.byId := by
    intro labs
    induction labs with
    | nil => intro j; rfl
    | cons a as ih =>
      intro j
      rw [List.foldl_cons]
      exact ih _
  simp only [schemaIndexStep]
  rw [hopt]
  split <;> rfl

/-- Fields whose ids differ from `k` do not disturb byId at `k`. -/
theorem foldl_byId_skip (rest : List FieldSchema) (acc : SchemaIndex) (k : String)
    (h : ∀ x ∈ rest, ¬ x.id = k) :
    assocGet ((rest.foldl schemaIndexStep acc).byId) k = assocGet acc.byId k := by
  induction rest generalizing acc with
  | nil => rfl
  | cons g rest ih =>
    rw [List.foldl_cons, ih _ (fun x hx => h x (List.mem_cons_of_mem g hx)),
        schemaIndexStep_byId, assocGet_assocSet,
        if_neg (fun hk => h g (List.mem_cons_self g rest) hk.symm)]

/-- With pairwise-distinct ids, byId maps each field's id to that field. -/
theorem byId_fold_lookup (fields : List FieldSchema) (acc : SchemaIndex)
    (f : FieldSchema) (hf : f ∈ fields) (hnd : (fields.map FieldSchema.id).Nodup) :
    assocGet ((fields.foldl schemaIndexStep acc).byId) f.id = some f := by
  induction fields generalizing acc with
  | nil => cases hf
  | cons g rest ih =>
    rw [List.map_cons, List.nodup_cons] at hnd
    rcases List.mem_cons.mp hf with hfg | hfr
    · subst hfg
      rw [List.foldl_cons,
          foldl_byId_skip rest _ f.id
            (fun x hx hxe => hnd.1 (hxe ▸ List.mem_map_of_mem FieldSchema.id hx)),
          schemaIndexStep_byId, assocGet_assocSet, if_pos rfl]
    · rw [List.foldl_cons]
      exact ih _ hfr hnd.2

/-- byId lookup through __buildSchemaIndex. -/
theorem buildSchemaIndex_byId_lookup (schema : FormSchema) (f : FieldSchema)
    (hf : f ∈ schema.fields) (hnd : (schema.fields.map FieldSchema.id).Nodup) :
    assocGet (__buildSchemaIndex schema).byId f.id = some f := by
  unfold __buildSchemaIndex
  exact byId_fold_lookup schema.fields ⟨[], [], []⟩ f hf hnd

/-- C6 (amended): resolver identity — resolveFieldRef(schema, f.id) = f —
holds for every field f whose id is nonempty, free of leading/trailing
whitespace, and does not contain "__opt__", provided field ids are pairwise
distinct (ids containing ":" are fine, since the exact-id branch precedes the
colon handling). An id containing "__opt__" can resolve to a different field
(see c6_counterexample). -/
theorem c6_amended_resolver_identity (schema : FormSchema) (f : FieldSchema)
    (hf : f ∈ schema.fields) (hnd : (schema.fields.map FieldSchema.id).Nodup)
    (hne : ¬ f.id = "") (htrim : jsTrim f.id = f.id)
    (hopt : strIncludes f.id "__opt__" = false) :
    __resolveFieldRef schema (.str f.id) = some f := by
  have htr : jsTruthy (JsVal.str f.id) = true := by
    simp [jsTruthy, hne]
  have hs : jsTrim (jsToString (JsVal.str f.id)) = f.id := by
    rw [show jsToString (JsVal.str f.id) = f.id from rfl, htrim]
  simp only [__resolveFieldRef, hs, hopt]
  rw [if_neg (by simp [htr])]
  simp only [Bool.false_eq_true, if_false]
  rw [buildSchemaIndex_byId_lookup schema f hf hnd]

/-- Concrete instantiation of c6_amended_resolver_identity: the plain id "a"
resolves to its own field. -/
theorem c6_amended_resolver_identity_witness :
    __resolveFieldRef c6Schema (.str c6FieldA.id) = some c6FieldA :=
  c6_amended_resolver_identity c6Schema c6FieldA (List.mem_cons_self _ _)
    (by decide) (by decide) rfl rfl

end FormSuite
